import Mathlib

/-!
# Verification of the noteplan-mcp note store

Shallow embedding of `src/services/noteService.ts`: the typed note-location
model, the entity parser, the TTL cache, and the mutation operations of the
note store.  Filesystem state (file contents, directory entries, stat data)
is threaded explicitly: the mutable module state of the source (the notes
cache, its refresh timestamp, the fallback in-memory database, and the files
written by mutations) lives in `World`; the read-only environment (directory
availability, scan results, clock-derived strings) lives in `Env`.

Timestamps (`created` / `modified`) are modeled as epoch numbers; the source
stores ISO-8601 strings and compares them through `Date.getTime()`, which is
order-isomorphic to the epoch encoding.  Thrown `Error`s are modeled by the
error taxonomy of the specification (`NotFound`, `Forbidden`, ...), one
constructor per distinct throw site family.
-/

namespace NotePlanMCP

/-- The `'calendar' | 'note'` union used for the `type` field of `NotePath`. -/
inductive NoteCategory where
  | calendar
  | note
  deriving DecidableEq, Repr

/-- `NotePath` from the source: category plus a slash-separated relative
path, where `"/"` is the category root. -/
structure NotePath where
  type : NoteCategory
  path : String
  deriving DecidableEq, Repr

/-- `Note` record produced by the entity parser and the mock database.
`created` / `modified` are epoch numbers (see module docstring). -/
structure Note where
  id : String
  title : String
  content : String
  created : Nat
  modified : Nat
  location : NotePath
  folder : String
  filePath : Option String := none
  filename : Option String := none
  type : Option String := none
  deriving DecidableEq, Repr

/-- Error taxonomy of the specification; each constructor stands for one
family of `throw new Error(...)` sites in the source. -/
inductive NoteError where
  | notFound
  | forbidden
  | textNotFound
  | ambiguousMatch
  | alreadyExists
  | invalidLocation
  | missingField
  | invalidName
  | notADirectory
  | ioFailure
  deriving DecidableEq, Repr

/-- `CreateNoteParams`; a missing `title` is the empty string (JS falsiness
of the required field is checked with `!noteData.title`). -/
structure CreateNoteParams where
  title : String
  content : Option String := none
  folder : Option String := none
  deriving DecidableEq, Repr

/-- `CreateDailyNoteParams`. -/
structure CreateDailyNoteParams where
  date : Option String := none
  content : Option String := none
  deriving DecidableEq, Repr

/-- `UpdateNoteParams`. -/
structure UpdateNoteParams where
  title : Option String := none
  content : Option String := none
  folder : Option String := none
  deriving DecidableEq, Repr

/-- `EditNoteParams`; `replace_all` defaults to `false` exactly as the
destructuring `const { old_text, new_text, replace_all = false }` does. -/
structure EditNoteParams where
  old_text : String
  new_text : String
  replace_all : Bool := false
  deriving DecidableEq, Repr

deriving instance DecidableEq for Except

/-- `String.prototype.startsWith`, by character-list prefix (the stdlib
byte-position variant does not reduce inside the kernel). -/
def strStartsWith (s pre : String) : Bool := pre.toList.isPrefixOf s.toList

/-- `String.prototype.endsWith`, by character-list suffix. -/
def strEndsWith (s suf : String) : Bool := suf.toList.isSuffixOf s.toList

/-- Drop the first `n` characters. -/
def strDrop (s : String) (n : Nat) : String := String.mk (s.toList.drop n)

/-- Keep all but the last `n` characters. -/
def strDropRight (s : String) (n : Nat) : String :=
  String.mk (s.toList.take (s.toList.length - n))

/-- `String.prototype.trim`: strip whitespace from both ends. -/
def trimStr (s : String) : String :=
  String.mk (((s.toList.dropWhile Char.isWhitespace).reverse.dropWhile Char.isWhitespace).reverse)

/-- `String.prototype.toLowerCase` (character-wise). -/
def toLowerStr (s : String) : String := String.mk (s.toList.map Char.toLower)

/-- `path.join` for the already-normalized segments the source produces. -/
def joinPath (a b : String) : String := a ++ "/" ++ b

/-- `NOTEPLAN_BASE_PATH`; `os.homedir()` is fixed to a constant. -/
def NOTEPLAN_BASE_PATH : String :=
  "/Users/u/Library/Containers/co.noteplan.NotePlan3/Data/Library/Application Support/co.noteplan.NotePlan3"

/-- `CALENDAR_PATH`. -/
def CALENDAR_PATH : String := joinPath NOTEPLAN_BASE_PATH "Calendar"

/-- `NOTES_PATH`. -/
def NOTES_PATH : String := joinPath NOTEPLAN_BASE_PATH "Notes"

/-- `createNotePath`. -/
def createNotePath (t : NoteCategory) (p : String) : NotePath := ⟨t, p⟩

/-- `getFileSystemPath`. -/
def getFileSystemPath (np : NotePath) : String :=
  let basePath := match np.type with
    | .calendar => CALENDAR_PATH
    | .note => NOTES_PATH
  if np.path == "/" then basePath else joinPath basePath np.path

/-- `formatLocationString`: calendar notes display as the `[daily-note]`
sentinel, regular notes display as their path. -/
def formatLocationString (np : NotePath) : String :=
  match np.type with
  | .calendar => "[daily-note]"
  | .note => np.path

/-- `parseLocationString`: rejects `Calendar` paths and the display
sentinel (the thrown error is the `InvalidLocation` condition), maps empty
or `"/"` input to the note root, otherwise a note subfolder. -/
def parseLocationString (str : String) : Except NoteError NotePath :=
  if str == "Calendar" || strStartsWith str "Calendar/" || str == "[daily-note]" then
    .error .invalidLocation
  else if str == "" || str == "/" then
    .ok (createNotePath .note "/")
  else
    .ok (createNotePath .note str)

/-- `isRootPath`. -/
def isRootPath (np : NotePath) : Bool := np.path == "/"

/-- The mock database `notesDb` (initial value), used when the NotePlan
directories are unavailable.  ISO timestamps of the source, as epoch
seconds: created `2023-01-01T12:00:00Z` = 1672574400, modified
`2023-01-02T14:30:00Z` = 1672669800, created `2023-02-15T09:45:00Z` =
1676454300, modified `2023-02-16T11:20:00Z` = 1676546400, created
`2023-03-10T16:15:00Z` = 1678464900, modified `2023-03-12T08:00:00Z` =
1678608000. -/
def notesDb0 : List Note :=
  [ { id := "note1", title := "Sample Note 1",
      content := "This is a sample note",
      created := 1672574400, modified := 1672669800,
      location := createNotePath .note "/", folder := "/" },
    { id := "note2", title := "Sample Note 2",
      content := "This is another sample note",
      created := 1676454300, modified := 1676546400,
      location := createNotePath .note "/", folder := "/" },
    { id := "note3", title := "Project Ideas",
      content := "- Build a note-taking app\n- Learn a new language\n- Write a book",
      created := 1678464900, modified := 1678608000,
      location := createNotePath .note "Projects", folder := "Projects" } ]

/-- Read-only environment of one store call: directory availability, the
notes produced by scanning each category root, stat metadata, the strings
the clock / `Date` parsing would produce, and the directory entries seen by
`existsSync` / `statSync`. -/
structure Env where
  available : Bool
  calendarScan : List Note
  notesScan : List Note
  statTable : List (String × Nat × Nat)
  todayStr : String
  todayIso : String
  dateTable : List (String × String × String)
  dateEpochTable : List (String × Nat)
  dirs : List String
  nonDirs : List String
  deriving Repr

/-- `new Date(d).toISOString().split('T')[0]` with the dashes removed, for
the given date or for "now"; date-string parsing is environment data. -/
def Env.toDateStr (env : Env) (od : Option String) : String :=
  match od with
  | none => env.todayStr
  | some s => (((env.dateTable.find? (fun e => e.1 == s)).map (fun e => e.2.1)).getD "")

/-- `toISOString()` of the given date or of "now". -/
def Env.isoOf (env : Env) (od : Option String) : String :=
  match od with
  | none => env.todayIso
  | some s => (((env.dateTable.find? (fun e => e.1 == s)).map (fun e => e.2.2)).getD "")

/-- Epoch number of the given date string, or of "now" when absent (the
`options.date ? new Date(options.date) : new Date()` pattern). -/
def Env.epochOf (env : Env) (now : Nat) (od : Option String) : Nat :=
  match od with
  | none => now
  | some s => (((env.dateEpochTable.find? (fun e => e.1 == s)).map (fun e => e.2)).getD 0)

/-- `fs.statSync`: `(birthtime, mtime)` as epoch numbers. -/
def Env.statOf (env : Env) (p : String) : Nat × Nat :=
  (((env.statTable.find? (fun e => e.1 == p)).map (fun e => e.2)).getD (0, 0))

/-- Mutable module-level state: the notes cache, its refresh timestamp, the
fallback in-memory database, and the note files on disk (path ↦ content). -/
structure World where
  notesCache : List Note
  lastCacheUpdate : Nat
  notesDb : List Note
  files : List (String × String)
  deriving DecidableEq, Repr

/-- The initial module state: empty cache, zero timestamp, mock database. -/
def initialWorld : World :=
  { notesCache := [], lastCacheUpdate := 0, notesDb := notesDb0, files := [] }

/-- `fs.readFileSync` on the modeled file table. -/
def readFile (files : List (String × String)) (p : String) : Option String :=
  (files.find? (fun e => e.1 == p)).map (fun e => e.2)

/-- `fs.writeFileSync` on the modeled file table. -/
def writeFile (files : List (String × String)) (p c : String) : List (String × String) :=
  match files with
  | [] => [(p, c)]
  | e :: t => if e.1 == p then (p, c) :: t else e :: writeFile t p c

/-- Deleting an entry (half of `fs.renameSync`). -/
def removeFile (files : List (String × String)) (p : String) : List (String × String) :=
  files.filter (fun e => e.1 != p)

/-- `fs.existsSync`: a note file, a directory, or a non-directory entry. -/
def existsSync (env : Env) (files : List (String × String)) (p : String) : Bool :=
  (readFile files p).isSome || env.dirs.contains p || env.nonDirs.contains p

/-- Insertion step of a stable descending sort on `modified`. -/
def insertByMod (n : Note) : List Note → List Note
  | [] => [n]
  | m :: ms => if m.modified ≤ n.modified then n :: m :: ms else m :: insertByMod n ms

/-- `notes.sort((a, b) => new Date(b.modified).getTime() - new Date(a.modified).getTime())`:
ECMAScript `Array.prototype.sort` is stable, and a stable sort under a total
preorder has a unique result, here realized by insertion sort. -/
def sortByModifiedDesc : List Note → List Note
  | [] => []
  | n :: rest => insertByMod n (sortByModifiedDesc rest)

/-- Adjacent-sortedness check: `modified` is descending along the list. -/
def sortedDescByModified : List Note → Bool
  | [] => true
  | [_] => true
  | a :: b :: t => (decide (b.modified ≤ a.modified)) && sortedDescByModified (b :: t)

/-- `loadNotesFromFileSystem`: when the directories are unavailable, the
mock database is returned as-is (the source logs a warning and returns
`notesDb` without sorting); otherwise both category scans are concatenated
and sorted by `modified` descending. -/
def loadNotesFromFileSystem (env : Env) (w : World) : List Note :=
  if env.available then sortByModifiedDesc (env.calendarScan ++ env.notesScan)
  else w.notesDb

/-- `CACHE_DURATION`. -/
def CACHE_DURATION : Nat := 5000

/-- `getAllNotes`: serve the cache when it is nonempty and younger than the
TTL, otherwise rebuild it and stamp the refresh time. -/
def getAllNotes (env : Env) (now : Nat) (w : World) : List Note × World :=
  if 0 < w.notesCache.length ∧ now - w.lastCacheUpdate < CACHE_DURATION then
    (w.notesCache, w)
  else
    let ns := loadNotesFromFileSystem env w
    (ns, { w with notesCache := ns, lastCacheUpdate := now })

/-- `/^\d{8}$/`. -/
def isEightDigits (s : String) : Bool :=
  s.length == 8 && s.toList.all Char.isDigit

/-- `/^\d{4}-\d{2}-\d{2}$/`. -/
def isDashDate (s : String) : Bool :=
  match s.toList with
  | [a, b, c, d, '-', e, f, '-', g, h] =>
    a.isDigit && b.isDigit && c.isDigit && d.isDigit &&
    e.isDigit && f.isDigit && g.isDigit && h.isDigit
  | _ => false

/-- `id.replace` with the global dash regex: removes every dash. -/
def stripDashes (s : String) : String :=
  String.mk (s.toList.filter (fun c => c != '-'))

/-- Body of `getNoteById` after `const notes = getAllNotes()`: exact id
match first; for 8-digit ids retry with the `calendar-` prefix; for
`YYYY-MM-DD` ids strip the dashes and retry with the prefix; else null. -/
def getNoteByIdIn (notes : List Note) (id : String) : Option Note :=
  match notes.find? (fun n => n.id == id) with
  | some n => some n
  | none =>
    match (if isEightDigits id then notes.find? (fun n => n.id == "calendar-" ++ id) else none) with
    | some n => some n
    | none =>
      if isDashDate id then notes.find? (fun n => n.id == "calendar-" ++ stripDashes id)
      else none

/-- `getNoteById`, threading the cache state. -/
def getNoteById (env : Env) (now : Nat) (w : World) (id : String) : Option Note × World :=
  let r := getAllNotes env now w
  (getNoteByIdIn r.1 id, r.2)

/-- Substring test (`String.prototype.includes`) on character lists. -/
def hasInfix (needle : List Char) : List Char → Bool
  | [] => needle.isEmpty
  | c :: t => needle.isPrefixOf (c :: t) || hasInfix needle t

/-- `s.includes(sub)`. -/
def jsIncludes (s sub : String) : Bool := hasInfix sub.toList s.toList

/-- `searchNotes`: case-insensitive substring match on title or content. -/
def searchNotes (env : Env) (now : Nat) (w : World) (query : String) : List Note × World :=
  let r := getAllNotes env now w
  let lowerQuery := toLowerStr query
  (r.1.filter (fun n =>
    jsIncludes (toLowerStr n.title) lowerQuery || jsIncludes (toLowerStr n.content) lowerQuery), r.2)

/-- Fuelled scan counting leftmost non-overlapping occurrences of the
nonempty pattern `p :: ps` (the fuel makes the recursion structural, so
terms reduce inside the kernel; every step consumes one fuel unit and at
least one character, so `fuel = length` is always sufficient). -/
def countOccFuel (p : Char) (ps : List Char) : Nat → List Char → Nat
  | 0, _ => 0
  | _ + 1, [] => 0
  | fuel + 1, c :: rest =>
    if (p :: ps).isPrefixOf (c :: rest) then countOccFuel p ps fuel (rest.drop ps.length) + 1
    else countOccFuel p ps fuel rest

/-- Number of leftmost non-overlapping occurrences of the nonempty pattern
`p :: ps` in a character list — the semantics of
`content.match(new RegExp(escaped, 'g')).length` for a nonempty needle. -/
def countOccL (p : Char) (ps : List Char) (s : List Char) : Nat :=
  countOccFuel p ps s.length s

/-- Fuelled variant of replace-all (see `countOccFuel` for the fuel). -/
def replAllFuel (p : Char) (ps rep : List Char) : Nat → List Char → List Char
  | 0, _ => []
  | _ + 1, [] => []
  | fuel + 1, c :: rest =>
    if (p :: ps).isPrefixOf (c :: rest) then rep ++ replAllFuel p ps rep fuel (rest.drop ps.length)
    else c :: replAllFuel p ps rep fuel rest

/-- Replace every leftmost non-overlapping occurrence of `p :: ps` by
`rep` — the semantics of `content.replaceAll(old, new)` for a nonempty
needle. -/
def replAllL (p : Char) (ps rep s : List Char) : List Char :=
  replAllFuel p ps rep s.length s

/-- Replace the leftmost occurrence of `p :: ps` by `rep` — the semantics
of `content.replace(old, new)` for a nonempty needle. -/
def replFirstL (p : Char) (ps : List Char) (rep : List Char) : List Char → List Char
  | [] => []
  | c :: rest =>
    if (p :: ps).isPrefixOf (c :: rest) then rep ++ rest.drop ps.length
    else c :: replFirstL p ps rep rest

/-- Fuelled variant of the occurrence splitter (see `countOccFuel`). -/
def splitAllFuel (p : Char) (ps : List Char) : Nat → List Char → List (List Char)
  | 0, _ => [[]]
  | _ + 1, [] => [[]]
  | fuel + 1, c :: rest =>
    if (p :: ps).isPrefixOf (c :: rest) then [] :: splitAllFuel p ps fuel (rest.drop ps.length)
    else
      match splitAllFuel p ps fuel rest with
      | [] => [[c]]
      | q :: qs => (c :: q) :: qs

/-- Split at every leftmost non-overlapping occurrence of `p :: ps`; the
resulting segments are the parts of the text that no replacement touches. -/
def splitAllL (p : Char) (ps s : List Char) : List (List Char) :=
  splitAllFuel p ps s.length s

/-- Interleave a separator between segments. -/
def intercalateL (sep : List Char) : List (List Char) → List Char
  | [] => []
  | [x] => x
  | x :: xs => x ++ sep ++ intercalateL sep xs

/-- Occurrence count of `editNote`: the escaped-regex global match count.
An empty needle matches at every position, giving `length + 1` (the JS
empty-regex behavior). -/
def countOccStr (pat s : String) : Nat :=
  match pat.toList with
  | [] => s.length + 1
  | p :: ps => countOccL p ps s.toList

/-- The backquote character (written by code to keep it out of the
source text). -/
def backquoteChar : Char := Char.ofNat 96

/-- The apostrophe character. -/
def quoteChar : Char := Char.ofNat 39

/-- ECMAScript `GetSubstitution` for a string-pattern replacement (no
capture groups): in the replacement text, `$$` yields a literal dollar,
`$&` the matched substring, a dollar followed by a backquote the part of
the original string before the match, and a dollar followed by an
apostrophe the part after it; any other dollar (including a trailing one
and `$1`..`$9`, since a string pattern has no captures) is literal. -/
def getSubL (matched before after : List Char) : List Char → List Char
  | [] => []
  | c :: rest =>
    if c = '$' then
      match rest with
      | [] => ['$']
      | d :: rest2 =>
        if d = '$' then '$' :: getSubL matched before after rest2
        else if d = '&' then matched ++ getSubL matched before after rest2
        else if d = backquoteChar then before ++ getSubL matched before after rest2
        else if d = quoteChar then after ++ getSubL matched before after rest2
        else '$' :: d :: getSubL matched before after rest2
    else c :: getSubL matched before after rest

/-- No dollar sign in the replacement text: the common case in which
`GetSubstitution` inserts the replacement literally. -/
def noDollarL (rep : List Char) : Bool := rep.all (fun c => c != '$')

/-- `noDollarL` on strings. -/
def noDollar (s : String) : Bool := noDollarL s.toList

/-- `content.replace(old, new)` for a nonempty needle, scanning with the
consumed prefix (`before`, for the dollar-backquote substitution): the
leftmost occurrence is replaced by the `GetSubstitution` of `rep`. -/
def replFirstSubL (p : Char) (ps rep : List Char) : List Char → List Char → List Char
  | _, [] => []
  | before, c :: rest =>
    if (p :: ps).isPrefixOf (c :: rest) then
      getSubL (p :: ps) before (rest.drop ps.length) rep ++ rest.drop ps.length
    else c :: replFirstSubL p ps rep (before ++ [c]) rest

/-- Fuelled scan of `content.replaceAll(old, new)` for a nonempty needle:
every leftmost non-overlapping occurrence is replaced by the
`GetSubstitution` of `rep` at that match (with `before`/`after` taken from
the original string). -/
def replAllSubFuel (p : Char) (ps rep : List Char) : Nat → List Char → List Char → List Char
  | 0, _, _ => []
  | _ + 1, _, [] => []
  | fuel + 1, before, c :: rest =>
    if (p :: ps).isPrefixOf (c :: rest) then
      getSubL (p :: ps) before (rest.drop ps.length) rep
        ++ replAllSubFuel p ps rep fuel (before ++ p :: ps) (rest.drop ps.length)
    else c :: replAllSubFuel p ps rep fuel (before ++ [c]) rest

/-- The list of substituted replacement texts, one per match (same scan as
`replAllSubFuel`). -/
def subsFuel (p : Char) (ps rep : List Char) : Nat → List Char → List Char → List (List Char)
  | 0, _, _ => []
  | _ + 1, _, [] => []
  | fuel + 1, before, c :: rest =>
    if (p :: ps).isPrefixOf (c :: rest) then
      getSubL (p :: ps) before (rest.drop ps.length) rep
        :: subsFuel p ps rep fuel (before ++ p :: ps) (rest.drop ps.length)
    else subsFuel p ps rep fuel (before ++ [c]) rest

/-- The substituted replacement texts of `replaceAll(old, new)` on `s`. -/
def subsL (p : Char) (ps rep s : List Char) : List (List Char) :=
  subsFuel p ps rep s.length [] s

/-- `replaceAll` with the empty needle: a match at every position, each
with its own `GetSubstitution`. -/
def emptyPatSubAll (rep : List Char) : List Char → List Char → List Char
  | before, [] => getSubL [] before [] rep
  | before, c :: rest =>
    getSubL [] before (c :: rest) rep ++ c :: emptyPatSubAll rep (before ++ [c]) rest

/-- `content.replaceAll(old, new)` with full ECMAScript semantics:
leftmost non-overlapping matches, each replaced by the `GetSubstitution`
of `new` at that match. -/
def jsReplaceAll (pat rep s : String) : String :=
  match pat.toList with
  | [] => String.mk (emptyPatSubAll rep.toList [] s.toList)
  | p :: ps => String.mk (replAllSubFuel p ps rep.toList s.toList.length [] s.toList)

/-- `content.replace(old, new)` (first occurrence only) with full
ECMAScript semantics; an empty needle matches at position 0 with the whole
string as its following context. -/
def jsReplaceFirst (pat rep s : String) : String :=
  match pat.toList with
  | [] => String.mk (getSubL [] [] s.toList rep.toList ++ s.toList)
  | p :: ps => String.mk (replFirstSubL p ps rep.toList [] s.toList)

/-- `GetSubstitution` on strings: the text inserted for a match of
`matched` preceded by `before` and followed by `after`. -/
def getSubstitutionStr (matched before after rep : String) : String :=
  String.mk (getSubL matched.toList before.toList after.toList rep.toList)

/-- The substituted replacement texts of `replaceAll`, as strings. -/
def subsStr (pat rep s : String) : List String :=
  match pat.toList with
  | [] => []
  | p :: ps => (subsL p ps rep.toList s.toList).map (fun l => String.mk l)

/-- Interleave segments with a list of (one fewer) separators. -/
def interleaveSegs : List (List Char) → List (List Char) → List Char
  | [], _ => []
  | x :: _, [] => x
  | x :: xs, y :: ys => x ++ y ++ interleaveSegs xs ys

/-- `interleaveSegs` on strings. -/
def interleaveStr : List String → List String → String
  | [], _ => ""
  | x :: _, [] => x
  | x :: xs, y :: ys => x ++ y ++ interleaveStr xs ys

/-- The untouched segments between the replaced occurrences, as strings. -/
def splitAllStr (pat s : String) : List String :=
  match pat.toList with
  | [] => [s]
  | p :: ps => (splitAllL p ps s.toList).map (fun l => String.mk l)

/-- Separator-interleaving on strings (mirrors `intercalateL`). -/
def concatWith (sep : String) : List String → String
  | [] => ""
  | [x] => x
  | x :: xs => x ++ sep ++ concatWith sep xs

/-- `path.basename`: the component after the last slash. -/
def basename (s : String) : String :=
  ((splitAllStr "/" s).getLast?).getD s

/-- `path.dirname`: everything before the last slash. -/
def dirname (s : String) : String :=
  concatWith "/" ((splitAllStr "/" s).dropLast)

/-- Index (from the left) of the last dot in a character list, if any. -/
def lastDotIdx : List Char → Option Nat
  | [] => none
  | c :: t =>
    match lastDotIdx t with
    | some i => some (i + 1)
    | none => if c == '.' then some 0 else none

/-- `path.extname`: the suffix of the basename from its last dot, empty for
dotfiles (a dot at position 0) and names without a dot. -/
def extname (s : String) : String :=
  let b := basename s
  match lastDotIdx b.toList with
  | none => ""
  | some i => if i == 0 then "" else String.mk (b.toList.drop i)

/-- `path.basename(filePath, ext)`: basename with the suffix `ext`
stripped when it matches. -/
def basenameDrop (fp ext : String) : String :=
  let b := basename fp
  if ext != "" && strEndsWith b ext then strDropRight b ext.length else b

/-- One frontmatter line against the `title:` field regex: `title:` then
optional whitespace then a nonempty rest, captured and trimmed. -/
def frontmatterTitleLine (l : String) : Option String :=
  if strStartsWith l "title:" && decide (6 < l.length) then some (trimStr (strDrop l 6)) else none

/-- Scan of the frontmatter body: stops at the closing `---`, returns the
first `title:` field found before it. -/
def frontmatterTitle : List String → Option String
  | [] => none
  | l :: rest =>
    if l == "---" then none
    else match frontmatterTitleLine l with
      | some t => some t
      | none => frontmatterTitle rest

/-- First markdown heading line `# ...` with a nonempty remainder. -/
def headingTitle : List String → Option String
  | [] => none
  | l :: rest =>
    if strStartsWith l "# " && decide (2 < l.length) then some (trimStr (strDrop l 2))
    else headingTitle rest

/-- Title extraction of `parseNoteFile`: frontmatter `title:` field first
(only when line 0 is `---`), then the first heading line (also when the
frontmatter title literally equals the filename, preserving that quirk),
then the filename stem. -/
def extractTitle (content filename : String) : String :=
  let lines := splitAllStr "\n" content
  let fmTitle :=
    match lines with
    | l0 :: rest => if l0 == "---" then frontmatterTitle rest else none
    | [] => none
  let title1 := fmTitle.getD filename
  if title1 == filename then (headingTitle lines).getD filename else title1

/-- `parseNoteFile`: reads the file, extracts the title, derives the id
from the category and the filename stem.  A missing file is the
read-failure path, which contributes no note. -/
def parseNoteFileM (env : Env) (files : List (String × String)) (filePath : String)
    (location : NotePath) : Option Note :=
  match readFile files filePath with
  | none => none
  | some content =>
    let ext := extname filePath
    let filename := basenameDrop filePath ext
    let title := extractTitle content filename
    let noteId := (match location.type with
      | .calendar => "calendar-"
      | .note => "note-") ++ filename
    some { id := noteId, title := title, content := content,
           created := (env.statOf filePath).1, modified := (env.statOf filePath).2,
           location := location, folder := formatLocationString location,
           filePath := some filePath, filename := some filename }

/-- Allowed characters of the filename sanitizer: `[a-zA-Z0-9\s\-_]`. -/
def isAllowedTitleChar (c : Char) : Bool :=
  c.isAlpha || c.isDigit || c.isWhitespace || c == '-' || c == '_'

/-- Collapse every whitespace run to a single hyphen: a whitespace
character followed by more whitespace is dropped, the last character of a
run becomes the hyphen. -/
def collapseWs : List Char → List Char
  | [] => []
  | [c] => if c.isWhitespace then ['-'] else [c]
  | c :: d :: rest =>
    if c.isWhitespace && d.isWhitespace then collapseWs (d :: rest)
    else (if c.isWhitespace then '-' else c) :: collapseWs (d :: rest)

/-- The title sanitizer of `createNote` / `renameNote`: strip characters
outside `[a-zA-Z0-9\s\-_]`, collapse whitespace runs to hyphens, truncate
to 50 characters. -/
def sanitizeTitle (t : String) : String :=
  String.mk ((collapseWs (t.toList.filter isAllowedTitleChar)).take 50)

/-- The header-rewrite step shared by `updateNote` and `renameNote`:
replace the first `# ` line by `# newTitle`, or prepend `# newTitle` plus a
blank line when no heading exists. -/
def replaceFirstHeading (t : String) : List String → List String
  | [] => []
  | l :: ls => if strStartsWith l "# " then ("# " ++ t) :: ls else l :: replaceFirstHeading t ls

/-- Apply a title update to content (split on newlines, rewrite or prepend
the heading, rejoin). -/
def applyTitleUpdate (t c : String) : String :=
  let lines := splitAllStr "\n" c
  if lines.any (fun l => strStartsWith l "# ") then
    concatWith "\n" (replaceFirstHeading t lines)
  else
    concatWith "\n" (("# " ++ t) :: "" :: lines)

/-- Result type of the note-returning mutations: a thrown error, or the
(possibly parse-failed) returned note together with the new module state. -/
abbrev OpResult := Except NoteError (Option Note × World)

/-- Cache fields of a successful mutation result (`none` on error). -/
def cacheStateOf {α : Type} (x : Except NoteError (α × World)) : Option (List Note × Nat) :=
  match x with
  | .error _ => none
  | .ok r => some (r.2.notesCache, r.2.lastCacheUpdate)

/-- Success test on an operation result. -/
def isOk {α : Type} : Except NoteError α → Bool
  | .ok _ => true
  | .error _ => false

/-- The content the stored note receives in `createNote`: the title heading
plus a blank line, followed by the supplied content.  The source's truthy
branch `content ? "# t\n\n" + content : "# t\n\n"` collapses to this single
formula because appending the empty string is the identity. -/
def createNoteContent (title : String) (content : Option String) : String :=
  "# " ++ title ++ "\n\n" ++ content.getD ""

/-- `createDailyNote`: derive the `YYYYMMDD` stem, fail `AlreadyExists`
when the id resolves, else write the template or given content to the
calendar root (clearing the cache) or push a mock note. -/
def createDailyNote (env : Env) (now : Nat) (w : World) (opts : CreateDailyNoteParams) : OpResult :=
  let dateStr := env.toDateStr opts.date
  let noteId := "calendar-" ++ dateStr
  let r := getAllNotes env now w
  let w1 := r.2
  match getNoteByIdIn r.1 noteId with
  | some _ => .error .alreadyExists
  | none =>
    let defaultTemplate :=
      "# " ++ dateStr ++ "\n\n## Today\x27s Plan\n- [ ]\n\n## Notes\n\n\n## Reflection\n\n\n---\nCreated: "
        ++ env.isoOf opts.date
    let content := match opts.content with
      | some c => if c == "" then defaultTemplate else c
      | none => defaultTemplate
    let location := createNotePath .calendar "/"
    if env.available then
      let filePath := joinPath CALENDAR_PATH (dateStr ++ ".txt")
      let files1 := writeFile w1.files filePath content
      let w2 := { w1 with files := files1, notesCache := [], lastCacheUpdate := 0 }
      .ok (parseNoteFileM env files1 filePath location, w2)
    else
      let newNote : Note :=
        { id := noteId, title := "Daily Note - " ++ dateStr, content := content,
          created := env.epochOf now opts.date, modified := env.epochOf now opts.date,
          location := location, folder := formatLocationString location, type := some "daily" }
      .ok (some newNote, { w1 with notesDb := w1.notesDb ++ [newNote] })

/-- `createNote`: require a title, sanitize it into a filename stem
suffixed with the clock, always prefix the content with the title heading,
parse the folder, write the file (clearing the cache) or push a mock
note. -/
def createNote (env : Env) (now : Nat) (w : World) (p : CreateNoteParams) : OpResult :=
  if p.title == "" then .error .missingField
  else
    let sanitizedTitle := sanitizeTitle p.title
    let filename := sanitizedTitle ++ "-" ++ toString now
    let noteId := "note-" ++ filename
    let content := createNoteContent p.title p.content
    match parseLocationString (p.folder.getD "/") with
    | .error e => .error e
    | .ok location =>
      if location.type != .note then .error .forbidden
      else if env.available then
        let targetPath := getFileSystemPath location
        let filePath := joinPath targetPath (filename ++ ".txt")
        let files1 := writeFile w.files filePath content
        .ok (parseNoteFileM env files1 filePath location,
             { w with files := files1, notesCache := [], lastCacheUpdate := 0 })
      else
        let newNote : Note :=
          { id := noteId, title := p.title, content := content, created := now,
            modified := now, location := location, folder := formatLocationString location }
        .ok (some newNote, { w with notesDb := w.notesDb ++ [newNote] })

/-- `updateNote`: resolve the id, and on the real-filesystem path (NotePlan
available and a backing file known) replace the content, rewrite the first
heading when a title is given, write the file and clear the cache;
otherwise update the mock database entry in place (no cache clearing). -/
def updateNote (env : Env) (now : Nat) (w : World) (id : String) (u : UpdateNoteParams) : OpResult :=
  let r := getNoteById env now w id
  let w1 := r.2
  match r.1 with
  | none => .error .notFound
  | some existingNote =>
    match existingNote.filePath with
    | some fp =>
      if env.available then
        let c0 := u.content.getD existingNote.content
        let c1 := match u.title with
          | none => c0
          | some t => applyTitleUpdate t c0
        let files1 := writeFile w1.files fp c1
        let w2 := { w1 with files := files1, notesCache := [], lastCacheUpdate := 0 }
        .ok (parseNoteFileM env files1 fp existingNote.location, w2)
      else
        updateNoteMock now w1 id u
    | none => updateNoteMock now w1 id u
where
  /-- The fallback branch: spread the given fields over the stored mock
  note and stamp `modified`. -/
  updateNoteMock (now : Nat) (w1 : World) (id : String) (u : UpdateNoteParams) : OpResult :=
    match w1.notesDb.findIdx? (fun n => n.id == id) with
    | none => .error .notFound
    | some i =>
      match w1.notesDb[i]? with
      | none => .error .notFound
      | some note =>
        let updatedNote : Note :=
          { note with
              title := u.title.getD note.title
              content := u.content.getD note.content
              folder := u.folder.getD note.folder
              modified := now }
        .ok (some updatedNote, { w1 with notesDb := w1.notesDb.set i updatedNote })

/-- `editNote`: resolve the id, count the literal occurrences of
`old_text`, fail on zero or on an ambiguous multiple match, replace the
single occurrence (or all of them under `replace_all`), and delegate the
write to `updateNote`. -/
def editNote (env : Env) (now : Nat) (w : World) (id : String) (p : EditNoteParams) : OpResult :=
  let r := getNoteById env now w id
  let w1 := r.2
  match r.1 with
  | none => .error .notFound
  | some existingNote =>
    let content := existingNote.content
    let occurrences := countOccStr p.old_text content
    if occurrences == 0 then .error .textNotFound
    else if 1 < occurrences && !p.replace_all then .error .ambiguousMatch
    else
      let newContent :=
        if p.replace_all then jsReplaceAll p.old_text p.new_text content
        else jsReplaceFirst p.old_text p.new_text content
      updateNote env now w1 id { content := some newContent }

/-- `renameNote`: forbidden for calendar notes (by location type or by id
prefix), `NotFound` when unresolved or without a backing file; on the real
path sanitize the new title into a filename, fail `AlreadyExists` on a
collision, rewrite the heading, write and rename the file, clear the
cache. -/
def renameNote (env : Env) (now : Nat) (w : World) (id : String) (newTitle : String) : OpResult :=
  let r := getNoteById env now w id
  let w1 := r.2
  match r.1 with
  | none => .error .notFound
  | some existingNote =>
    if existingNote.location.type == .calendar || strStartsWith id "calendar-" then .error .forbidden
    else
      match existingNote.filePath with
      | none => .error .notFound
      | some fp =>
        if env.available then
          let sanitizedTitle := sanitizeTitle newTitle
          let ext := extname fp
          let dirPath := dirname fp
          let newFilePath := joinPath dirPath (sanitizedTitle ++ ext)
          if existsSync env w1.files newFilePath && newFilePath != fp then .error .alreadyExists
          else
            let content := applyTitleUpdate newTitle existingNote.content
            let files1 := writeFile w1.files fp content
            let files2 :=
              if newFilePath != fp then writeFile (removeFile files1 fp) newFilePath content
              else files1
            let w2 := { w1 with files := files2, notesCache := [], lastCacheUpdate := 0 }
            .ok (parseNoteFileM env files2 newFilePath existingNote.location, w2)
        else
          match w1.notesDb.findIdx? (fun n => n.id == id) with
          | none => .error .notFound
          | some i =>
            match w1.notesDb[i]? with
            | none => .error .notFound
            | some note =>
              let sanitizedTitle := sanitizeTitle newTitle
              let newId := "note-" ++ sanitizedTitle
              let updatedNote : Note :=
                { note with
                    id := newId
                    title := newTitle
                    content := "# " ++ newTitle ++ "\n\n"
                      ++ concatWith "\n" ((splitAllStr "\n" note.content).drop 2)
                    modified := now }
              .ok (some updatedNote, { w1 with notesDb := w1.notesDb.set i updatedNote })

/-- `moveNote`: forbidden for calendar notes, `NotFound` without a backing
file, destination is the target folder joined with the existing basename,
`AlreadyExists` when that path is occupied by a different file; otherwise
rename the file (content untouched), clear the cache, reparse. -/
def moveNote (env : Env) (now : Nat) (w : World) (id : String) (targetFolder : String) : OpResult :=
  let r := getNoteById env now w id
  let w1 := r.2
  match r.1 with
  | none => .error .notFound
  | some existingNote =>
    if existingNote.location.type == .calendar || strStartsWith id "calendar-" then .error .forbidden
    else
      match existingNote.filePath with
      | none => .error .notFound
      | some fp =>
        match parseLocationString targetFolder with
        | .error e => .error e
        | .ok targetLocation =>
          if targetLocation.type != .note then .error .forbidden
          else if env.available then
            let targetPath := getFileSystemPath targetLocation
            let filename := basename fp
            let newFilePath := joinPath targetPath filename
            if existsSync env w1.files newFilePath && newFilePath != fp then .error .alreadyExists
            else if newFilePath != fp then
              match readFile w1.files fp with
              | none => .error .ioFailure
              | some c =>
                let files1 := writeFile (removeFile w1.files fp) newFilePath c
                let w2 := { w1 with files := files1, notesCache := [], lastCacheUpdate := 0 }
                .ok (parseNoteFileM env files1 newFilePath targetLocation, w2)
            else
              let w2 := { w1 with notesCache := [], lastCacheUpdate := 0 }
              .ok (parseNoteFileM env w1.files newFilePath targetLocation, w2)
          else
            match w1.notesDb.findIdx? (fun n => n.id == id) with
            | none => .error .notFound
            | some i =>
              match w1.notesDb[i]? with
              | none => .error .notFound
              | some note =>
                let updatedNote : Note :=
                  { note with
                      location := targetLocation
                      folder := formatLocationString targetLocation
                      modified := now }
                .ok (some updatedNote, { w1 with notesDb := w1.notesDb.set i updatedNote })

/-- Result record of `renameFolder`. -/
structure RenameFolderResult where
  success : Bool
  affectedNotes : Nat
  message : String
  deriving DecidableEq, Repr

/-- The notes under a folder (equal path or strict subpath). -/
def underFolder (oldPath : String) (n : Note) : Bool :=
  n.location.type == .note
    && (n.location.path == oldPath || strStartsWith n.location.path (oldPath ++ "/"))

/-- `renameFolder`: forbidden for the calendar category and the root,
`InvalidName` for empty / slash-containing / reserved names; on the real
path check the old directory, count the affected notes, rename the
directory wholesale and clear the cache; on the mock path rewrite the
stored locations in place (no cache clearing). -/
def renameFolder (env : Env) (now : Nat) (w : World) (oldFolderPath newFolderName : String) :
    Except NoteError (RenameFolderResult × World) :=
  match parseLocationString oldFolderPath with
  | .error e => .error e
  | .ok oldLocation =>
    if oldLocation.type == .calendar then .error .forbidden
    else if oldLocation.path == "/" then .error .forbidden
    else
      let sanitizedNewName := trimStr newFolderName
      if sanitizedNewName == "" then .error .invalidName
      else if sanitizedNewName.toList.contains '/' then .error .invalidName
      else if sanitizedNewName == "Calendar" then .error .invalidName
      else
        let pathParts := splitAllStr "/" oldLocation.path
        let newPath := concatWith "/" (pathParts.dropLast ++ [sanitizedNewName])
        let newLocation := createNotePath .note newPath
        let message := fun (count : Nat) =>
          "Folder renamed from \x22" ++ oldLocation.path ++ "\x22 to \x22" ++ newPath
            ++ "\x22. " ++ toString count ++ " note(s) updated."
        if !env.available then
          let affected := w.notesDb.filter (underFolder oldLocation.path)
          let db' := w.notesDb.map (fun n =>
            if underFolder oldLocation.path n then
              let updatedPath :=
                if n.location.path == oldLocation.path then newPath
                else jsReplaceFirst (oldLocation.path ++ "/") (newPath ++ "/") n.location.path
              let updatedLocation := createNotePath .note updatedPath
              { n with
                  location := updatedLocation
                  folder := formatLocationString updatedLocation
                  modified := now }
            else n)
          .ok ({ success := true, affectedNotes := affected.length,
                 message := message affected.length }, { w with notesDb := db' })
        else
          let oldFolderFsPath := getFileSystemPath oldLocation
          let newFolderFsPath := getFileSystemPath newLocation
          if !(existsSync env w.files oldFolderFsPath) then .error .notFound
          else if !(env.dirs.contains oldFolderFsPath) then .error .notADirectory
          else if existsSync env w.files newFolderFsPath then .error .alreadyExists
          else
            let r := getAllNotes env now w
            let w1 := r.2
            let affected := r.1.filter (underFolder oldLocation.path)
            let files' := w1.files.map (fun e =>
              if strStartsWith e.1 (oldFolderFsPath ++ "/") then
                (newFolderFsPath ++ e.1.drop oldFolderFsPath.length, e.2)
              else e)
            let w2 := { w1 with files := files', notesCache := [], lastCacheUpdate := 0 }
            .ok ({ success := true, affectedNotes := affected.length,
                   message := message affected.length }, w2)

/-! ### Concrete fixtures used by witnesses and counterexamples -/

/-- A calendar note for 2025-09-29, as the scanner would produce it. -/
def calNote : Note :=
  { id := "calendar-20250929", title := "20250929", content := "daily",
    created := 0, modified := 0, location := createNotePath .calendar "/",
    folder := "[daily-note]", filePath := some (joinPath CALENDAR_PATH "20250929.txt"),
    filename := some "20250929" }

/-- A regular note whose content has two occurrences of `"foo"`. -/
def fooNote : Note :=
  { id := "note-Foo", title := "Foo", content := "foo bar foo",
    created := 0, modified := 5, location := createNotePath .note "/",
    folder := "/", filePath := some (joinPath NOTES_PATH "Foo.txt"),
    filename := some "Foo" }

/-- An environment with the NotePlan directories present and empty scans. -/
def envAvail : Env :=
  { available := true, calendarScan := [], notesScan := [], statTable := [],
    todayStr := "20991231", todayIso := "2099-12-31T00:00:00.000Z", dateTable := [],
    dateEpochTable := [], dirs := [], nonDirs := [] }

/-- An environment without the NotePlan directories (mock-database mode). -/
def envUnavail : Env := { envAvail with available := false }

/-- A warm cache holding `calNote` and `fooNote`, with `fooNote`'s file on
disk; reads at small clock values hit this cache. -/
def wWarm : World :=
  { notesCache := [calNote, fooNote], lastCacheUpdate := 0, notesDb := notesDb0,
    files := [(joinPath NOTES_PATH "Foo.txt", "foo bar foo")] }

/-- An environment whose notes-root scan yields the mock notes (so a
rebuild actually has something to sort). -/
def envScan : Env := { envAvail with notesScan := notesDb0 }

/-- A regular note without a backing file path. -/
def barNote : Note :=
  { id := "note-Bar", title := "Bar", content := "bar",
    created := 0, modified := 3, location := createNotePath .note "/",
    folder := "/", filePath := none, filename := some "Bar" }

/-- A warm cache whose only note lacks a backing file. -/
def wNoFile : World :=
  { notesCache := [barNote], lastCacheUpdate := 0, notesDb := notesDb0, files := [] }

/-- The note returned by a successful mutation, when any. -/
def returnedNote : OpResult → Option Note
  | .ok (some n, _) => some n
  | _ => none

/-- The file table of a successful mutation result. -/
def resultFiles : OpResult → Option (List (String × String))
  | .ok (_, w) => some w.files
  | .error _ => none

/-- `wWarm` with a nonzero refresh timestamp (still inside the TTL at
clock 11). -/
def wWarmTen : World := { wWarm with lastCacheUpdate := 10 }

/-- `envAvail` with the `Projects` folder present on disk. -/
def envProj : Env := { envAvail with dirs := [joinPath NOTES_PATH "Projects"] }

/-! ## Helper lemmas -/

theorem isPrefixOf_eq_append {l₁ l₂ : List Char} (h : l₁.isPrefixOf l₂ = true) :
    l₂ = l₁ ++ l₂.drop l₁.length := by
  obtain ⟨t, ht⟩ := List.isPrefixOf_iff_prefix.mp h
  subst ht
  simp

theorem isPrefixOf_cons_expand {p c : Char} {ps t : List Char}
    (h : (p :: ps).isPrefixOf (c :: t) = true) :
    c :: t = (p :: ps) ++ t.drop ps.length := by
  have hexp := isPrefixOf_eq_append h
  have h2 : (c :: t).drop (p :: ps).length = t.drop ps.length := by simp
  rw [h2] at hexp
  exact hexp

theorem countOccFuel_irrel (p : Char) (ps : List Char) :
    ∀ f1 f2 s, s.length ≤ f1 → s.length ≤ f2 →
      countOccFuel p ps f1 s = countOccFuel p ps f2 s := by
  intro f1
  induction f1 with
  | zero =>
    intro f2 s h1 _
    have hs : s = [] := List.eq_nil_of_length_eq_zero (Nat.le_zero.mp h1)
    subst hs
    cases f2 <;> rfl
  | succ n ih =>
    intro f2 s h1 h2
    cases s with
    | nil => cases f2 <;> rfl
    | cons c rest =>
      cases f2 with
      | zero => simp at h2
      | succ m =>
        simp only [List.length_cons, Nat.add_le_add_iff_right] at h1 h2
        simp only [countOccFuel]
        by_cases hp : (p :: ps).isPrefixOf (c :: rest) = true
        · rw [if_pos hp, if_pos hp]
          have hd1 : (rest.drop ps.length).length ≤ n := by
            simp only [List.length_drop]
            omega
          have hd2 : (rest.drop ps.length).length ≤ m := by
            simp only [List.length_drop]
            omega
          rw [ih m _ hd1 hd2]
        · rw [if_neg hp, if_neg hp]
          exact ih m rest h1 h2

theorem replAllFuel_irrel (p : Char) (ps rep : List Char) :
    ∀ f1 f2 s, s.length ≤ f1 → s.length ≤ f2 →
      replAllFuel p ps rep f1 s = replAllFuel p ps rep f2 s := by
  intro f1
  induction f1 with
  | zero =>
    intro f2 s h1 _
    have hs : s = [] := List.eq_nil_of_length_eq_zero (Nat.le_zero.mp h1)
    subst hs
    cases f2 <;> rfl
  | succ n ih =>
    intro f2 s h1 h2
    cases s with
    | nil => cases f2 <;> rfl
    | cons c rest =>
      cases f2 with
      | zero => simp at h2
      | succ m =>
        simp only [List.length_cons, Nat.add_le_add_iff_right] at h1 h2
        simp only [replAllFuel]
        by_cases hp : (p :: ps).isPrefixOf (c :: rest) = true
        · rw [if_pos hp, if_pos hp]
          have hd1 : (rest.drop ps.length).length ≤ n := by
            simp only [List.length_drop]
            omega
          have hd2 : (rest.drop ps.length).length ≤ m := by
            simp only [List.length_drop]
            omega
          rw [ih m _ hd1 hd2]
        · rw [if_neg hp, if_neg hp]
          rw [ih m rest h1 h2]

theorem splitAllFuel_irrel (p : Char) (ps : List Char) :
    ∀ f1 f2 s, s.length ≤ f1 → s.length ≤ f2 →
      splitAllFuel p ps f1 s = splitAllFuel p ps f2 s := by
  intro f1
  induction f1 with
  | zero =>
    intro f2 s h1 _
    have hs : s = [] := List.eq_nil_of_length_eq_zero (Nat.le_zero.mp h1)
    subst hs
    cases f2 <;> rfl
  | succ n ih =>
    intro f2 s h1 h2
    cases s with
    | nil => cases f2 <;> rfl
    | cons c rest =>
      cases f2 with
      | zero => simp at h2
      | succ m =>
        simp only [List.length_cons, Nat.add_le_add_iff_right] at h1 h2
        simp only [splitAllFuel]
        by_cases hp : (p :: ps).isPrefixOf (c :: rest) = true
        · rw [if_pos hp, if_pos hp]
          have hd1 : (rest.drop ps.length).length ≤ n := by
            simp only [List.length_drop]
            omega
          have hd2 : (rest.drop ps.length).length ≤ m := by
            simp only [List.length_drop]
            omega
          rw [ih m _ hd1 hd2]
        · rw [if_neg hp, if_neg hp]
          rw [ih m rest h1 h2]

theorem countOccL_nil (p : Char) (ps : List Char) : countOccL p ps [] = 0 := rfl

theorem countOccL_cons_pos (p : Char) (ps : List Char) {c : Char} {rest : List Char}
    (hp : (p :: ps).isPrefixOf (c :: rest) = true) :
    countOccL p ps (c :: rest) = countOccL p ps (rest.drop ps.length) + 1 := by
  show countOccFuel p ps (rest.length + 1) (c :: rest) = _
  simp only [countOccFuel, if_pos hp]
  rw [countOccFuel_irrel p ps rest.length (rest.drop ps.length).length (rest.drop ps.length)
    (by simp only [List.length_drop]; omega) le_rfl]
  rfl

theorem countOccL_cons_neg (p : Char) (ps : List Char) {c : Char} {rest : List Char}
    (hp : ¬(p :: ps).isPrefixOf (c :: rest) = true) :
    countOccL p ps (c :: rest) = countOccL p ps rest := by
  show countOccFuel p ps (rest.length + 1) (c :: rest) = _
  simp only [countOccFuel, if_neg hp]
  rfl

theorem replAllL_nil (p : Char) (ps rep : List Char) : replAllL p ps rep [] = [] := rfl

theorem replAllL_cons_pos (p : Char) (ps rep : List Char) {c : Char} {rest : List Char}
    (hp : (p :: ps).isPrefixOf (c :: rest) = true) :
    replAllL p ps rep (c :: rest) = rep ++ replAllL p ps rep (rest.drop ps.length) := by
  show replAllFuel p ps rep (rest.length + 1) (c :: rest) = _
  simp only [replAllFuel, if_pos hp]
  rw [replAllFuel_irrel p ps rep rest.length (rest.drop ps.length).length (rest.drop ps.length)
    (by simp only [List.length_drop]; omega) le_rfl]
  rfl

theorem replAllL_cons_neg (p : Char) (ps rep : List Char) {c : Char} {rest : List Char}
    (hp : ¬(p :: ps).isPrefixOf (c :: rest) = true) :
    replAllL p ps rep (c :: rest) = c :: replAllL p ps rep rest := by
  show replAllFuel p ps rep (rest.length + 1) (c :: rest) = _
  simp only [replAllFuel, if_neg hp]
  rfl

theorem splitAllL_nil (p : Char) (ps : List Char) : splitAllL p ps [] = [[]] := rfl

theorem splitAllL_cons_pos (p : Char) (ps : List Char) {c : Char} {rest : List Char}
    (hp : (p :: ps).isPrefixOf (c :: rest) = true) :
    splitAllL p ps (c :: rest) = [] :: splitAllL p ps (rest.drop ps.length) := by
  show splitAllFuel p ps (rest.length + 1) (c :: rest) = _
  simp only [splitAllFuel, if_pos hp]
  rw [splitAllFuel_irrel p ps rest.length (rest.drop ps.length).length (rest.drop ps.length)
    (by simp only [List.length_drop]; omega) le_rfl]
  rfl

theorem splitAllL_cons_neg (p : Char) (ps : List Char) {c : Char} {rest : List Char}
    (hp : ¬(p :: ps).isPrefixOf (c :: rest) = true) :
    splitAllL p ps (c :: rest)
      = match splitAllL p ps rest with
        | [] => [[c]]
        | q :: qs => (c :: q) :: qs := by
  show splitAllFuel p ps (rest.length + 1) (c :: rest) = _
  simp only [splitAllFuel, if_neg hp]
  rfl

/-- Induction principle following the leftmost-match scan: the empty list,
a match at the head (continue after the matched block), or no match at the
head (continue at the tail). -/
theorem patScanInd (p : Char) (ps : List Char) (motive : List Char → Prop)
    (h1 : motive [])
    (h2 : ∀ c t, (p :: ps).isPrefixOf (c :: t) = true → motive (t.drop ps.length) → motive (c :: t))
    (h3 : ∀ c t, ¬(p :: ps).isPrefixOf (c :: t) = true → motive t → motive (c :: t)) :
    ∀ s, motive s := by
  have key : ∀ n s, s.length ≤ n → motive s := by
    intro n
    induction n with
    | zero =>
      intro s hs
      have : s = [] := List.eq_nil_of_length_eq_zero (Nat.le_zero.mp hs)
      subst this
      exact h1
    | succ n ih =>
      intro s hs
      cases s with
      | nil => exact h1
      | cons c t =>
        simp only [List.length_cons, Nat.add_le_add_iff_right] at hs
        by_cases hp : (p :: ps).isPrefixOf (c :: t) = true
        · exact h2 c t hp (ih _ (by simp only [List.length_drop]; omega))
        · exact h3 c t hp (ih t hs)
  exact fun s => key s.length s le_rfl

theorem splitAllL_cons_head (p : Char) (ps s : List Char) :
    ∃ q qs t, splitAllL p ps s = q :: qs ∧ q ++ t = s := by
  induction s using patScanInd p ps with
  | h1 => exact ⟨[], [], [], splitAllL_nil p ps, rfl⟩
  | h2 c t h ih =>
    exact ⟨[], splitAllL p ps (t.drop ps.length), c :: t, splitAllL_cons_pos p ps h, rfl⟩
  | h3 c t h ih =>
    obtain ⟨q, qs, u, hq, hu⟩ := ih
    refine ⟨c :: q, qs, u, ?_, by simp [hu]⟩
    rw [splitAllL_cons_neg p ps h, hq]

theorem splitAllL_length (p : Char) (ps s : List Char) :
    (splitAllL p ps s).length = countOccL p ps s + 1 := by
  induction s using patScanInd p ps with
  | h1 => rw [splitAllL_nil, countOccL_nil]; rfl
  | h2 c t h ih =>
    rw [splitAllL_cons_pos p ps h, countOccL_cons_pos p ps h]
    simp [ih]
  | h3 c t h ih =>
    obtain ⟨q, qs, u, hq, _⟩ := splitAllL_cons_head p ps t
    rw [splitAllL_cons_neg p ps h, countOccL_cons_neg p ps h, hq]
    rw [hq] at ih
    simpa using ih

theorem intercalateL_splitAllL (p : Char) (ps s : List Char) :
    intercalateL (p :: ps) (splitAllL p ps s) = s := by
  induction s using patScanInd p ps with
  | h1 => rw [splitAllL_nil]; rfl
  | h2 c t h ih =>
    obtain ⟨q, qs, u, hq, hu⟩ := splitAllL_cons_head p ps (t.drop ps.length)
    rw [hq] at ih
    rw [splitAllL_cons_pos p ps h, hq]
    have hstep : intercalateL (p :: ps) ([] :: q :: qs)
        = (p :: ps) ++ intercalateL (p :: ps) (q :: qs) := by simp [intercalateL]
    rw [hstep, ih]
    exact (isPrefixOf_cons_expand h).symm
  | h3 c t h ih =>
    obtain ⟨q, qs, u, hq, hu⟩ := splitAllL_cons_head p ps t
    rw [hq] at ih
    rw [splitAllL_cons_neg p ps h, hq]
    cases qs with
    | nil =>
      simp only [intercalateL] at ih ⊢
      simp [ih]
    | cons k ks =>
      simp only [intercalateL] at ih ⊢
      simp [ih]

theorem replAllL_eq_intercalateL (p : Char) (ps rep s : List Char) :
    replAllL p ps rep s = intercalateL rep (splitAllL p ps s) := by
  induction s using patScanInd p ps with
  | h1 => rw [splitAllL_nil, replAllL_nil]; rfl
  | h2 c t h ih =>
    obtain ⟨q, qs, u, hq, _⟩ := splitAllL_cons_head p ps (t.drop ps.length)
    rw [hq] at ih
    rw [splitAllL_cons_pos p ps h, hq, replAllL_cons_pos p ps rep h, ih]
    simp [intercalateL]
  | h3 c t h ih =>
    obtain ⟨q, qs, u, hq, _⟩ := splitAllL_cons_head p ps t
    rw [hq] at ih
    rw [splitAllL_cons_neg p ps h, hq, replAllL_cons_neg p ps rep h, ih]
    cases qs with
    | nil => simp [intercalateL]
    | cons k ks => simp [intercalateL]

theorem countOccL_cons_zero {p : Char} {ps : List Char} {c : Char} {a t : List Char}
    (hpre : ∃ u, a ++ u = t) (hnp : ¬(p :: ps).isPrefixOf (c :: t) = true)
    (ha : countOccL p ps a = 0) : countOccL p ps (c :: a) = 0 := by
  have hfalse : ¬(p :: ps).isPrefixOf (c :: a) = true := by
    intro hx
    obtain ⟨u, hu⟩ := hpre
    have h1 : (p :: ps) <+: (c :: a) := List.isPrefixOf_iff_prefix.mp hx
    have h2 : (c :: a) <+: (c :: t) := ⟨u, by simp [hu]⟩
    exact hnp (List.isPrefixOf_iff_prefix.mpr (h1.trans h2))
  rw [countOccL_cons_neg p ps hfalse]
  exact ha

theorem countOccL_splitAllL_zero (p : Char) (ps s : List Char) :
    ∀ part ∈ splitAllL p ps s, countOccL p ps part = 0 := by
  induction s using patScanInd p ps with
  | h1 =>
    rw [splitAllL_nil]
    intro part hp
    rcases List.mem_singleton.mp hp with rfl
    exact countOccL_nil p ps
  | h2 c t h ih =>
    rw [splitAllL_cons_pos p ps h]
    intro part hp
    rcases List.mem_cons.mp hp with rfl | hp
    · exact countOccL_nil p ps
    · exact ih part hp
  | h3 c t h ih =>
    obtain ⟨q, qs, u, hq, hu⟩ := splitAllL_cons_head p ps t
    rw [splitAllL_cons_neg p ps h, hq]
    intro part hp
    rcases List.mem_cons.mp hp with rfl | hp
    · exact countOccL_cons_zero ⟨u, hu⟩ h (ih q (by rw [hq]; exact List.mem_cons_self _ _))
    · exact ih part (by rw [hq]; exact List.mem_cons_of_mem _ hp)

theorem replFirstL_decomp (p : Char) (ps rep s : List Char) (h : 1 ≤ countOccL p ps s) :
    ∃ a b, s = a ++ (p :: ps) ++ b ∧ replFirstL p ps rep s = a ++ rep ++ b
      ∧ countOccL p ps a = 0 := by
  induction s using patScanInd p ps with
  | h1 => rw [countOccL_nil] at h; omega
  | h2 c t hp ih =>
    refine ⟨[], t.drop ps.length, ?_, by simp [replFirstL, hp], countOccL_nil p ps⟩
    simpa using isPrefixOf_cons_expand hp
  | h3 c t hp ih =>
    rw [countOccL_cons_neg p ps hp] at h
    obtain ⟨a, b, e1, e2, e3⟩ := ih h
    refine ⟨c :: a, b, by simp [e1], by simp [replFirstL, hp, e2], ?_⟩
    exact countOccL_cons_zero ⟨(p :: ps) ++ b, by simp [e1]⟩ hp e3

theorem mk_append (a b : List Char) : String.mk a ++ String.mk b = String.mk (a ++ b) := rfl

theorem mk_toList (s : String) : String.mk s.toList = s := rfl

theorem concatWith_mk (sep : List Char) (parts : List (List Char)) :
    concatWith (String.mk sep) (parts.map (fun l => String.mk l))
      = String.mk (intercalateL sep parts) := by
  induction parts with
  | nil => rfl
  | cons x xs ih =>
    cases xs with
    | nil => rfl
    | cons y ys =>
      simp only [List.map, concatWith, intercalateL] at ih ⊢
      rw [ih, mk_append, mk_append]

theorem sortedDesc_insertByMod {l : List Note} (n : Note)
    (h : sortedDescByModified l = true) :
    sortedDescByModified (insertByMod n l) = true := by
  induction l with
  | nil => simp [insertByMod, sortedDescByModified]
  | cons m ms ih =>
    by_cases hc : m.modified ≤ n.modified
    · have : insertByMod n (m :: ms) = n :: m :: ms := by simp [insertByMod, hc]
      rw [this]
      simp [sortedDescByModified, hc]
      exact h
    · have hins : insertByMod n (m :: ms) = m :: insertByMod n ms := by simp [insertByMod, hc]
      rw [hins]
      cases ms with
      | nil =>
        simp [insertByMod, sortedDescByModified]
        omega
      | cons k ks =>
        have htail : sortedDescByModified (k :: ks) = true := by
          simp only [sortedDescByModified, Bool.and_eq_true] at h
          exact h.2
        have hmk : k.modified ≤ m.modified := by
          simp only [sortedDescByModified, Bool.and_eq_true, decide_eq_true_eq] at h
          exact h.1
        have ih' := ih htail
        by_cases hk : k.modified ≤ n.modified
        · have : insertByMod n (k :: ks) = n :: k :: ks := by simp [insertByMod, hk]
          rw [this] at ih' ⊢
          simp only [sortedDescByModified, Bool.and_eq_true, decide_eq_true_eq] at ih' ⊢
          exact ⟨by omega, ih'⟩
        · have : insertByMod n (k :: ks) = k :: insertByMod n ks := by simp [insertByMod, hk]
          rw [this] at ih' ⊢
          simp only [sortedDescByModified, Bool.and_eq_true, decide_eq_true_eq] at ih' ⊢
          exact ⟨hmk, ih'⟩

theorem sortedDesc_sortByModifiedDesc (l : List Note) :
    sortedDescByModified (sortByModifiedDesc l) = true := by
  induction l with
  | nil => rfl
  | cons n rest ih => exact sortedDesc_insertByMod n ih

theorem hasInfix_nil (l : List Char) : hasInfix [] l = true := by
  cases l with
  | nil => rfl
  | cons c t => simp [hasInfix, List.isPrefixOf]

theorem getAllNotes_stable (env : Env) (now : Nat) (w : World) :
    getAllNotes env now ((getAllNotes env now w).2)
      = ((getAllNotes env now w).1, (getAllNotes env now w).2) := by
  by_cases hc : 0 < w.notesCache.length ∧ now - w.lastCacheUpdate < CACHE_DURATION
  · simp [getAllNotes, hc]
  · have h1 : getAllNotes env now w
        = (loadNotesFromFileSystem env w,
           { w with notesCache := loadNotesFromFileSystem env w, lastCacheUpdate := now }) := by
      simp [getAllNotes, hc]
    rw [h1]
    by_cases h2 : 0 < (loadNotesFromFileSystem env w).length
    · simp [getAllNotes, h2, CACHE_DURATION]
    · have hload : loadNotesFromFileSystem env
          { w with notesCache := loadNotesFromFileSystem env w, lastCacheUpdate := now }
          = loadNotesFromFileSystem env w := by
        simp [loadNotesFromFileSystem]
      simp [getAllNotes, h2, CACHE_DURATION, hload]

theorem parseLocationString_ok_type {s : String} {l : NotePath}
    (h : parseLocationString s = .ok l) : l.type = .note := by
  unfold parseLocationString at h
  split at h
  · cases h
  · split at h
    · cases h
      rfl
    · cases h
      rfl

theorem readFile_writeFile_self (fs : List (String × String)) (p c : String) :
    readFile (writeFile fs p c) p = some c := by
  induction fs with
  | nil => simp [writeFile, readFile]
  | cons e t ih =>
    by_cases h : (e.1 == p) = true
    · simp [writeFile, h, readFile]
    · simp only [writeFile, h, Bool.false_eq_true, if_false]
      simp only [readFile, List.find?] at ih ⊢
      simp only [Bool.not_eq_true] at h
      rw [h]
      exact ih

theorem readFile_writeFile_other (fs : List (String × String)) (p c q : String)
    (h : (q == p) = false) : readFile (writeFile fs p c) q = readFile fs q := by
  induction fs with
  | nil =>
    have hpq : (p == q) = false := by
      simp only [beq_eq_false_iff_ne] at h ⊢
      exact fun e => h e.symm
    simp [writeFile, readFile, List.find?, hpq]
  | cons e t ih =>
    by_cases he : (e.1 == p) = true
    · have hep : e.1 = p := by simpa using he
      have heq : (e.1 == q) = false := by
        simp only [beq_eq_false_iff_ne] at h ⊢
        rw [hep]
        exact fun x => h x.symm
      have hpq : (p == q) = false := by
        simp only [beq_eq_false_iff_ne] at h ⊢
        exact fun x => h x.symm
      simp only [writeFile, he, if_true, readFile, List.find?, hpq, heq]
    · simp only [writeFile, he, Bool.false_eq_true, if_false]
      simp only [readFile, List.find?] at ih ⊢
      cases hq : (e.1 == q) with
      | true => rfl
      | false => exact ih

theorem readFile_removeFile_self (fs : List (String × String)) (p : String) :
    readFile (removeFile fs p) p = none := by
  induction fs with
  | nil => rfl
  | cons e t ih =>
    by_cases he : (e.1 == p) = true
    · simp only [removeFile, List.filter] at ih ⊢
      simp only [he, bne, Bool.not_true]
      exact ih
    · simp only [removeFile, List.filter] at ih ⊢
      simp only [Bool.not_eq_true] at he
      simp only [bne, he, Bool.not_false]
      simp only [readFile, List.find?, he]
      exact ih

/-! ## Claim theorems -/

/-- C10: `searchNotes` with the empty query returns the entire current
snapshot unchanged — the case-insensitive substring test against title or
content is vacuously satisfied by the empty query — so an empty search
coincides with `getAllNotes` (even in order, hence in particular up to
order). -/
theorem searchNotes_empty_query (env : Env) (now : Nat) (w : World) :
    searchNotes env now w "" = getAllNotes env now w := by
  have hq : toLowerStr "" = "" := rfl
  simp only [searchNotes, hq]
  rw [List.filter_eq_self.mpr, Prod.mk.eta]
  intro n _
  simp [jsIncludes, hasInfix_nil]

/-- C7 counterexample: the round trip fails for the note-category Location
with path `"Calendar"` (such a Location arises from a `Notes/Calendar`
subfolder on disk): its display string is rejected by the folder parser
with `InvalidLocation`, so the claim's universal statement over all
note-category Locations is false. -/
theorem location_roundtrip_counterexample :
    (createNotePath .note "Calendar").type = .note
    ∧ parseLocationString (formatLocationString (createNotePath .note "Calendar"))
        = .error .invalidLocation
    ∧ parseLocationString (formatLocationString (createNotePath .note "Calendar"))
        ≠ .ok (createNotePath .note "Calendar") :=
  ⟨rfl, by decide, by decide⟩

/-- C7 amended: for every note-category Location whose path is not the
reserved `Calendar` name or a `Calendar/` subpath, not the calendar display
sentinel, and not the empty string, `parseUserFolder (toDisplayString loc)`
succeeds and returns exactly `loc`. -/
theorem location_roundtrip_amended (loc : NotePath) (h1 : loc.type = .note)
    (h2 : loc.path ≠ "Calendar") (h3 : strStartsWith loc.path "Calendar/" = false)
    (h4 : loc.path ≠ "[daily-note]") (h5 : loc.path ≠ "") :
    parseLocationString (formatLocationString loc) = .ok loc := by
  obtain ⟨t, p⟩ := loc
  cases t with
  | calendar => cases h1
  | note =>
    show parseLocationString p = .ok (createNotePath .note p)
    have c1 : (p == "Calendar") = false := by simp [h2]
    have c3 : (p == "[daily-note]") = false := by simp [h4]
    have c4 : (p == "") = false := by simp [h5]
    by_cases hroot : p = "/"
    · subst hroot
      decide
    · have c5 : (p == "/") = false := by simp [hroot]
      simp [parseLocationString, c1, h3, c3, c4, c5, createNotePath]

/-- C7 witness: a representative nested note folder round-trips. -/
theorem location_roundtrip_amended_witness :
    parseLocationString (formatLocationString (createNotePath .note "02. Work/10. Tasks"))
      = .ok (createNotePath .note "02. Work/10. Tasks") :=
  location_roundtrip_amended (createNotePath .note "02. Work/10. Tasks") rfl
    (by decide) (by decide) (by decide) (by decide)

/-- C8 counterexample: content that already begins with a heading line is
still given a second heading.  `"# Hello\n\nbody"` starts with `"# "`, yet
`createNote` stores it behind another `"# Hello"` line — the stored content
has two heading lines, refuting "content that already begins with a heading
line is not given a second heading". -/
theorem createNote_heading_counterexample :
    strStartsWith "# Hello\n\nbody" "# " = true
    ∧ createNoteContent "Hello" (some "# Hello\n\nbody") = "# Hello\n\n# Hello\n\nbody"
    ∧ ((splitAllStr "\n" (createNoteContent "Hello" (some "# Hello\n\nbody"))).countP
        (fun l => strStartsWith l "# ")) = 2 :=
  ⟨by decide, by decide, by decide⟩

/-- C8 amended: `createNote` prefixes the stored content with the title
heading unconditionally — no already-structured check exists.  On the mock
path the returned note carries exactly that content; on the real path the
file written at the computed path carries it. -/
theorem createNote_heading_amended (env : Env) (now : Nat) (w : World) (p : CreateNoteParams)
    (loc : NotePath) (ht : ¬p.title = "")
    (hloc : parseLocationString (p.folder.getD "/") = .ok loc) :
    (∀ t c, createNoteContent t (some c) = "# " ++ t ++ "\n\n" ++ c)
    ∧ (env.available = true →
        (resultFiles (createNote env now w p)).map
            (fun fs => readFile fs (joinPath (getFileSystemPath loc)
              (sanitizeTitle p.title ++ "-" ++ toString now ++ ".txt")))
          = some (some (createNoteContent p.title p.content)))
    ∧ (env.available = false →
        (returnedNote (createNote env now w p)).map (fun n => n.content)
          = some (createNoteContent p.title p.content)) := by
  have htype : loc.type = .note := parseLocationString_ok_type hloc
  have hbeq : (p.title == "") = false := by simp [ht]
  have hguard : (loc.type != NoteCategory.note) = false := by simp [htype]
  refine ⟨fun t c => rfl, ?_, ?_⟩
  · intro ha
    simp only [createNote, hbeq, Bool.false_eq_true, if_false, hloc, hguard, ha, if_true,
      resultFiles, Option.map, readFile_writeFile_self]
  · intro ha
    simp only [createNote, hbeq, Bool.false_eq_true, if_false, hloc, hguard, ha,
      returnedNote, Option.map]

/-- C8 amended witness: at a concrete already-structured content the
unconditional prefix is observable on the mock path. -/
theorem createNote_heading_amended_witness :
    ¬("Hello" : String) = ""
    ∧ parseLocationString "/" = .ok (createNotePath .note "/")
    ∧ (returnedNote (createNote envUnavail 7 initialWorld
          { title := "Hello", content := some "# Hello\n\nbody" })).map (fun n => n.content)
        = some (createNoteContent "Hello" (some "# Hello\n\nbody")) :=
  ⟨by decide, by decide,
    (createNote_heading_amended envUnavail 7 initialWorld
      { title := "Hello", content := some "# Hello\n\nbody" }
      (createNotePath .note "/") (by decide) (by decide)).2.2 rfl⟩

/-- C5 counterexample: when the backing directories are absent, the rebuild
returns the fixed in-memory placeholder notes in their stored order, which
is ascending — not sorted by `modified` descending — refuting the claim's
"this holds … when the backing directories are entirely absent". -/
theorem rebuild_sorted_counterexample :
    (getAllNotes envUnavail 0 initialWorld).1 = notesDb0
    ∧ sortedDescByModified notesDb0 = false
    ∧ sortedDescByModified (getAllNotes envUnavail 0 initialWorld).1 = false :=
  ⟨by decide, by decide, by decide⟩

/-- C5 amended: on every cache rebuild with the directories present, the
snapshot is the stable sort of both category scans by `modified` descending
(hence descending-sorted); with the directories absent the mock database is
returned as-is, with no sorting applied. -/
theorem rebuild_sorted_amended (env : Env) (now : Nat) (w : World)
    (hmiss : ¬(0 < w.notesCache.length ∧ now - w.lastCacheUpdate < CACHE_DURATION)) :
    (env.available = true →
      (getAllNotes env now w).1 = sortByModifiedDesc (env.calendarScan ++ env.notesScan)
      ∧ sortedDescByModified (getAllNotes env now w).1 = true)
    ∧ (env.available = false → (getAllNotes env now w).1 = w.notesDb) := by
  have hload : (getAllNotes env now w).1 = loadNotesFromFileSystem env w := by
    simp [getAllNotes, hmiss]
  constructor
  · intro ha
    rw [hload]
    exact ⟨by simp [loadNotesFromFileSystem, ha],
      by simp [loadNotesFromFileSystem, ha, sortedDesc_sortByModifiedDesc]⟩
  · intro ha
    rw [hload]
    simp [loadNotesFromFileSystem, ha]

/-- C5 amended witness: a rebuild over a nonempty notes scan returns the
descending-sorted scan. -/
theorem rebuild_sorted_amended_witness :
    (getAllNotes envScan 0 initialWorld).1
        = sortByModifiedDesc (envScan.calendarScan ++ envScan.notesScan)
    ∧ sortedDescByModified (getAllNotes envScan 0 initialWorld).1 = true :=
  (rebuild_sorted_amended envScan 0 initialWorld (by decide)).1 rfl

/-- C6 counterexample: after a rebuild that produced an empty snapshot, a
second read 1000 ms later (inside the TTL, with no intervening mutation)
does not return the cached snapshot unchanged: the emptiness test in
`getAllNotes` forces a fresh rebuild, which re-stamps the refresh time (and
in the source allocates a fresh array, so the two snapshots are not
reference-equal), refuting the claim's "including the state where the
rebuild produced an empty note set". -/
theorem cache_ttl_counterexample :
    (getAllNotes envAvail 0 initialWorld).1 = []
    ∧ (1000 : Nat) - ((getAllNotes envAvail 0 initialWorld).2).lastCacheUpdate < CACHE_DURATION
    ∧ getAllNotes envAvail 1000 ((getAllNotes envAvail 0 initialWorld).2)
        ≠ (((getAllNotes envAvail 0 initialWorld).2).notesCache,
           (getAllNotes envAvail 0 initialWorld).2) :=
  ⟨by decide, by decide, by decide⟩

/-- C6 amended: two reads inside the TTL window with a nonempty cached
snapshot and no intervening mutation both return the stored snapshot and
leave the state untouched (the reference-equal cache-hit path); the
emptiness condition of the cache test is required. -/
theorem cache_ttl_amended (env : Env) (w : World) (now1 now2 : Nat)
    (hne : w.notesCache ≠ [])
    (h1 : now1 - w.lastCacheUpdate < CACHE_DURATION)
    (h2 : now2 - w.lastCacheUpdate < CACHE_DURATION) :
    getAllNotes env now1 w = (w.notesCache, w)
    ∧ getAllNotes env now2 w = (w.notesCache, w) := by
  have hlen : 0 < w.notesCache.length := List.length_pos.mpr hne
  exact ⟨by simp [getAllNotes, hlen, h1], by simp [getAllNotes, hlen, h2]⟩

/-- C6 amended witness: two warm-cache reads at clocks 3 and 4 return the
same snapshot with the state unchanged. -/
theorem cache_ttl_amended_witness :
    getAllNotes envAvail 3 wWarm = (wWarm.notesCache, wWarm)
    ∧ getAllNotes envAvail 4 wWarm = (wWarm.notesCache, wWarm) :=
  cache_ttl_amended envAvail wWarm 3 4 (by decide) (by decide) (by decide)

/-- C1: `getNoteById` resolves an id by exact match first; failing that,
an 8-digit id is retried with the `calendar-` prefix; failing that, a
`YYYY-MM-DD` id is retried with the dashes stripped and the prefix added;
otherwise the result is null.  In particular, when a note with id
`calendar-20250929` exists (and no note carries the bare date ids, which
real ids never do), `"20250929"`, `"2025-09-29"` and `"calendar-20250929"`
all resolve to that same note.  The final conjunct ties the stateful
operation to this resolution logic. -/
theorem getNoteById_resolution (notes : List Note) (id : String) :
    (∀ n, notes.find? (fun m => m.id == id) = some n → getNoteByIdIn notes id = some n)
    ∧ (∀ n, notes.find? (fun m => m.id == id) = none → isEightDigits id = true →
        notes.find? (fun m => m.id == "calendar-" ++ id) = some n →
        getNoteByIdIn notes id = some n)
    ∧ (notes.find? (fun m => m.id == id) = none →
        (isEightDigits id = false ∨ notes.find? (fun m => m.id == "calendar-" ++ id) = none) →
        isDashDate id = true →
        getNoteByIdIn notes id = notes.find? (fun m => m.id == "calendar-" ++ stripDashes id))
    ∧ (notes.find? (fun m => m.id == id) = none →
        (isEightDigits id = false ∨ notes.find? (fun m => m.id == "calendar-" ++ id) = none) →
        isDashDate id = false →
        getNoteByIdIn notes id = none)
    ∧ (∀ nt, (∀ n ∈ notes, n.id ≠ "20250929" ∧ n.id ≠ "2025-09-29") →
        getNoteByIdIn notes "calendar-20250929" = some nt →
        getNoteByIdIn notes "20250929" = some nt
        ∧ getNoteByIdIn notes "2025-09-29" = some nt)
    ∧ (∀ env now w, getNoteById env now w id
        = (getNoteByIdIn (getAllNotes env now w).1 id, (getAllNotes env now w).2)) := by
  refine ⟨?_, ?_, ?_, ?_, ?_, fun env now w => rfl⟩
  · intro n h
    simp [getNoteByIdIn, h]
  · intro n hnone h8 hcal
    simp [getNoteByIdIn, hnone, h8, hcal]
  · intro hnone hd8 hdash
    rcases hd8 with h8 | hcaln
    · simp [getNoteByIdIn, hnone, h8, hdash]
    · cases h8 : isEightDigits id <;> simp [getNoteByIdIn, hnone, h8, hcaln, hdash]
  · intro hnone hd8 hdash
    rcases hd8 with h8 | hcaln
    · simp [getNoteByIdIn, hnone, h8, hdash]
    · cases h8 : isEightDigits id <;> simp [getNoteByIdIn, hnone, h8, hcaln, hdash]
  · intro nt hclean hres
    have hf20 : notes.find? (fun m => m.id == "20250929") = none := by
      rw [List.find?_eq_none]
      intro x hx
      simpa using (hclean x hx).1
    have hfdash : notes.find? (fun m => m.id == "2025-09-29") = none := by
      rw [List.find?_eq_none]
      intro x hx
      simpa using (hclean x hx).2
    have hcal : notes.find? (fun m => m.id == "calendar-20250929") = some nt := by
      cases hf : notes.find? (fun m => m.id == "calendar-20250929") with
      | some n =>
        unfold getNoteByIdIn at hres
        rw [hf] at hres
        simpa using hres
      | none =>
        unfold getNoteByIdIn at hres
        rw [hf] at hres
        rw [show isEightDigits "calendar-20250929" = false from by decide,
          show isDashDate "calendar-20250929" = false from by decide] at hres
        simp at hres
    constructor
    · unfold getNoteByIdIn
      rw [hf20, show isEightDigits "20250929" = true from by decide]
      simp only [if_true]
      rw [show ("calendar-" ++ "20250929" : String) = "calendar-20250929" from by decide, hcal]
    · unfold getNoteByIdIn
      rw [hfdash, show isEightDigits "2025-09-29" = false from by decide,
        show isDashDate "2025-09-29" = true from by decide]
      simp only [Bool.false_eq_true, if_false]
      rw [show ("calendar-" ++ stripDashes "2025-09-29" : String) = "calendar-20250929" from by decide,
        hcal]
      simp

/-- C1 witness: concrete resolutions against a store holding exactly the
note `calendar-20250929`. -/
theorem getNoteById_resolution_witness :
    getNoteByIdIn [calNote] "20250929" = some calNote
    ∧ getNoteByIdIn [calNote] "2025-09-29" = some calNote
    ∧ getNoteByIdIn [calNote] "calendar-20250929" = some calNote
    ∧ getNoteByIdIn [calNote] "20991231" = none := by
  have h5 := (getNoteById_resolution [calNote] "20250929").2.2.2.2.1 calNote
    (by decide) (by decide)
  refine ⟨h5.1, h5.2, ?_, ?_⟩
  · exact (getNoteById_resolution [calNote] "calendar-20250929").1 calNote (by decide)
  · exact (getNoteById_resolution [calNote] "20991231").2.2.2.1 (by decide)
      (Or.inr (by decide)) (by decide)



/-- C3 counterexample: for the id `calendar-20991231`, which begins with
`calendar-` but does not resolve, `renameNote` fails with `NotFound` (the
resolution check precedes the calendar check), not `Forbidden` — refuting
"always fails with Forbidden" for unresolvable calendar ids. -/
theorem renameNote_calendar_counterexample :
    strStartsWith "calendar-20991231" "calendar-" = true
    ∧ renameNote envAvail 0 wWarm "calendar-20991231" "Valid Title" = .error .notFound
    ∧ renameNote envAvail 0 wWarm "calendar-20991231" "Valid Title" ≠ .error .forbidden :=
  ⟨by decide, by decide, by decide⟩

/-- C3 amended: an id beginning with `calendar-` that resolves always
fails `Forbidden` regardless of the new title; an id that does not resolve
fails `NotFound` (this check coming first); and a resolved non-calendar
note without a backing file also fails with the `NotFound`-family error
(`file path not available`). -/
theorem renameNote_calendar_amended (env : Env) (now : Nat) (w : World) (id newTitle : String) :
    (∀ nt, strStartsWith id "calendar-" = true →
        getNoteByIdIn (getAllNotes env now w).1 id = some nt →
        renameNote env now w id newTitle = .error .forbidden)
    ∧ (getNoteByIdIn (getAllNotes env now w).1 id = none →
        renameNote env now w id newTitle = .error .notFound)
    ∧ (∀ nt, getNoteByIdIn (getAllNotes env now w).1 id = some nt →
        (nt.location.type == NoteCategory.calendar || strStartsWith id "calendar-") = false →
        nt.filePath = none →
        renameNote env now w id newTitle = .error .notFound) := by
  refine ⟨?_, ?_, ?_⟩
  · intro nt hpre hres
    have hcond : (nt.location.type == NoteCategory.calendar || strStartsWith id "calendar-") = true := by
      simp [hpre]
    simp only [renameNote, getNoteById, hres, hcond, if_true]
  · intro hres
    simp only [renameNote, getNoteById, hres]
  · intro nt hres hcond hfp
    simp only [renameNote, getNoteById, hres, hcond, Bool.false_eq_true, if_false, hfp]

/-- C3 amended witness: a resolving calendar id is Forbidden, an
unresolvable one is NotFound, and a resolved note without a backing file is
NotFound. -/
theorem renameNote_calendar_amended_witness :
    renameNote envAvail 0 wWarm "calendar-20250929" "Anything" = .error .forbidden
    ∧ renameNote envAvail 0 wWarm "calendar-20991231" "Anything" = .error .notFound
    ∧ renameNote envAvail 0 wNoFile "note-Bar" "Anything" = .error .notFound :=
  ⟨(renameNote_calendar_amended envAvail 0 wWarm "calendar-20250929" "Anything").1 calNote
      (by decide) (by decide),
   (renameNote_calendar_amended envAvail 0 wWarm "calendar-20991231" "Anything").2.1 (by decide),
   (renameNote_calendar_amended envAvail 0 wNoFile "note-Bar" "Anything").2.2 barNote
      (by decide) (by decide) (by decide)⟩



theorem getSubL_noDollar (m b a : List Char) :
    ∀ rep, noDollarL rep = true → getSubL m b a rep = rep := by
  intro rep
  induction rep with
  | nil => intro _; rfl
  | cons c rest ih =>
    intro hnd
    simp only [noDollarL, List.all_cons, Bool.and_eq_true] at hnd
    obtain ⟨hc, hrest⟩ := hnd
    have hcf : ¬c = '$' := by simpa using hc
    rw [getSubL.eq_def]
    simp [hcf, ih hrest]

theorem replAllSubFuel_noDollar (p : Char) (ps rep : List Char) (hnd : noDollarL rep = true) :
    ∀ fuel before s, replAllSubFuel p ps rep fuel before s = replAllFuel p ps rep fuel s := by
  intro fuel
  induction fuel with
  | zero => intro before s; rfl
  | succ n ih =>
    intro before s
    cases s with
    | nil => rfl
    | cons c rest =>
      simp only [replAllSubFuel, replAllFuel]
      by_cases hp : (p :: ps).isPrefixOf (c :: rest) = true
      · rw [if_pos hp, if_pos hp, getSubL_noDollar _ _ _ _ hnd, ih]
      · rw [if_neg hp, if_neg hp, ih]

theorem replAllSub_eq_interleave (p : Char) (ps rep : List Char) :
    ∀ fuel before s, s.length ≤ fuel →
      replAllSubFuel p ps rep fuel before s
        = interleaveSegs (splitAllL p ps s) (subsFuel p ps rep fuel before s) := by
  intro fuel
  induction fuel with
  | zero =>
    intro before s hs
    have : s = [] := List.eq_nil_of_length_eq_zero (Nat.le_zero.mp hs)
    subst this
    rfl
  | succ n ih =>
    intro before s hs
    cases s with
    | nil => rfl
    | cons c rest =>
      simp only [List.length_cons, Nat.add_le_add_iff_right] at hs
      by_cases hp : (p :: ps).isPrefixOf (c :: rest) = true
      · rw [splitAllL_cons_pos p ps hp]
        simp only [replAllSubFuel, subsFuel, if_pos hp]
        rw [ih (before ++ p :: ps) (rest.drop ps.length) (by simp only [List.length_drop]; omega)]
        simp [interleaveSegs]
      · obtain ⟨q, qs, u, hq, hu⟩ := splitAllL_cons_head p ps rest
        rw [splitAllL_cons_neg p ps hp, hq]
        simp only [replAllSubFuel, subsFuel, if_neg hp]
        rw [ih (before ++ [c]) rest hs, hq]
        cases hsub : subsFuel p ps rep n (before ++ [c]) rest with
        | nil => simp [interleaveSegs]
        | cons y ys => simp [interleaveSegs]

theorem subsFuel_length (p : Char) (ps rep : List Char) :
    ∀ fuel before s, s.length ≤ fuel →
      (subsFuel p ps rep fuel before s).length = countOccL p ps s := by
  intro fuel
  induction fuel with
  | zero =>
    intro before s hs
    have : s = [] := List.eq_nil_of_length_eq_zero (Nat.le_zero.mp hs)
    subst this
    rfl
  | succ n ih =>
    intro before s hs
    cases s with
    | nil => rfl
    | cons c rest =>
      simp only [List.length_cons, Nat.add_le_add_iff_right] at hs
      by_cases hp : (p :: ps).isPrefixOf (c :: rest) = true
      · rw [countOccL_cons_pos p ps hp]
        simp only [subsFuel, if_pos hp, List.length_cons]
        rw [ih (before ++ p :: ps) (rest.drop ps.length) (by simp only [List.length_drop]; omega)]
      · rw [countOccL_cons_neg p ps hp]
        simp only [subsFuel, if_neg hp]
        exact ih (before ++ [c]) rest hs

theorem replFirstSub_decomp (p : Char) (ps rep s : List Char) (h : 1 ≤ countOccL p ps s) :
    ∀ before, ∃ a b, s = a ++ (p :: ps) ++ b
      ∧ replFirstSubL p ps rep before s = a ++ getSubL (p :: ps) (before ++ a) b rep ++ b
      ∧ countOccL p ps a = 0 := by
  induction s using patScanInd p ps with
  | h1 => rw [countOccL_nil] at h; omega
  | h2 c t hp ih =>
    intro before
    refine ⟨[], t.drop ps.length, ?_, ?_, countOccL_nil p ps⟩
    · simpa using isPrefixOf_cons_expand hp
    · simp [replFirstSubL, hp]
  | h3 c t hp ih =>
    intro before
    rw [countOccL_cons_neg p ps hp] at h
    obtain ⟨a, b, e1, e2, e3⟩ := ih h (before ++ [c])
    refine ⟨c :: a, b, by simp [e1], ?_, ?_⟩
    · simp only [replFirstSubL, if_neg hp, e2]
      simp [List.append_assoc]
    · exact countOccL_cons_zero ⟨(p :: ps) ++ b, by simp [e1]⟩ hp e3

theorem interleaveStr_mk : ∀ segs subs : List (List Char),
    interleaveStr (segs.map (fun l => String.mk l)) (subs.map (fun l => String.mk l))
      = String.mk (interleaveSegs segs subs) := by
  intro segs
  induction segs with
  | nil => intro subs; rfl
  | cons x xs ih =>
    intro subs
    cases subs with
    | nil => rfl
    | cons y ys =>
      simp only [List.map, interleaveStr, interleaveSegs]
      rw [ih ys, mk_append, mk_append]

/-- C2: `editNote` dispatch and replacement semantics.  Unresolved ids
fail `NotFound`; zero literal occurrences of `old_text` fail
`TextNotFound`; several occurrences with `replace_all` unset fail
`AmbiguousMatch`; a unique occurrence (or `replace_all`) delegates the
rewritten content to `updateNote`.  The last two conjuncts pin down the
ECMAScript replacement semantics (including `GetSubstitution` of dollar
escapes in `new_text`): the content splits into segments containing no
occurrence of `old_text`, interleaved with `old_text`, and replace-all
interleaves exactly those segments with the per-match substitutions of
`new_text` — so after a `replace_all` edit no occurrence of `old_text`
survives except one overlapping an inserted substitution (i.e.
reintroduced by `new_text`); when `new_text` carries no dollar sign the
substitution is `new_text` itself and the plain interleaving equation is
recovered.  The single-replacement decomposition replaces exactly the
leftmost occurrence by its substitution. -/
theorem editNote_spec (env : Env) (now : Nat) (w : World) (id : String) (p : EditNoteParams) :
    (getNoteByIdIn (getAllNotes env now w).1 id = none →
        editNote env now w id p = .error .notFound)
    ∧ (∀ nt, getNoteByIdIn (getAllNotes env now w).1 id = some nt →
        (countOccStr p.old_text nt.content = 0 →
            editNote env now w id p = .error .textNotFound)
        ∧ (1 < countOccStr p.old_text nt.content → p.replace_all = false →
            editNote env now w id p = .error .ambiguousMatch)
        ∧ (countOccStr p.old_text nt.content = 1 → p.replace_all = false →
            editNote env now w id p = updateNote env now (getAllNotes env now w).2 id
              { content := some (jsReplaceFirst p.old_text p.new_text nt.content) })
        ∧ (p.replace_all = true → 1 ≤ countOccStr p.old_text nt.content →
            editNote env now w id p = updateNote env now (getAllNotes env now w).2 id
              { content := some (jsReplaceAll p.old_text p.new_text nt.content) }))
    ∧ (∀ oldT newT s : String, oldT ≠ "" →
        concatWith oldT (splitAllStr oldT s) = s
        ∧ jsReplaceAll oldT newT s = interleaveStr (splitAllStr oldT s) (subsStr oldT newT s)
        ∧ (∀ part ∈ splitAllStr oldT s, countOccStr oldT part = 0)
        ∧ (splitAllStr oldT s).length = countOccStr oldT s + 1
        ∧ (subsStr oldT newT s).length = countOccStr oldT s
        ∧ (noDollar newT = true →
            jsReplaceAll oldT newT s = concatWith newT (splitAllStr oldT s)))
    ∧ (∀ oldT newT s : String, oldT ≠ "" → 1 ≤ countOccStr oldT s →
        ∃ a b : String, s = a ++ oldT ++ b
          ∧ jsReplaceFirst oldT newT s = a ++ getSubstitutionStr oldT a b newT ++ b
          ∧ countOccStr oldT a = 0
          ∧ (noDollar newT = true → jsReplaceFirst oldT newT s = a ++ newT ++ b)) := by
  refine ⟨?_, ?_, ?_, ?_⟩
  · intro hres
    simp only [editNote, getNoteById, hres]
  · intro nt hres
    refine ⟨?_, ?_, ?_, ?_⟩
    · intro h0
      have hb : (countOccStr p.old_text nt.content == 0) = true := by simp [h0]
      simp only [editNote, getNoteById, hres, hb, if_true]
    · intro hgt hra
      have hne0 : countOccStr p.old_text nt.content ≠ 0 := by omega
      have hb : (countOccStr p.old_text nt.content == 0) = false := by simp [hne0]
      have hcond : (decide (1 < countOccStr p.old_text nt.content) && !p.replace_all) = true := by
        simp [hra, hgt]
      simp only [editNote, getNoteById, hres, hb, Bool.false_eq_true, if_false, hcond, if_true]
    · intro h1 hra
      have hb : (countOccStr p.old_text nt.content == 0) = false := by simp [h1]
      have hcond : (decide (1 < countOccStr p.old_text nt.content) && !false) = false := by
        simp [h1]
      simp only [editNote, getNoteById, hres, hb, hcond, Bool.false_eq_true, if_false, hra]
    · intro hra hocc
      have hne0 : countOccStr p.old_text nt.content ≠ 0 := by omega
      have hb : (countOccStr p.old_text nt.content == 0) = false := by simp [hne0]
      have hcond : (decide (1 < countOccStr p.old_text nt.content) && !true) = false := by
        simp
      simp only [editNote, getNoteById, hres, hb, hcond, Bool.false_eq_true, if_false, hra,
        if_true]
  · intro oldT newT s hne
    have hpat : ∃ pc psc, oldT.toList = pc :: psc := by
      cases h : oldT.toList with
      | nil => exact absurd (by rw [← mk_toList oldT, h]) hne
      | cons pc psc => exact ⟨pc, psc, rfl⟩
    obtain ⟨pc, psc, hpat⟩ := hpat
    have holdT : oldT = String.mk (pc :: psc) := by
      conv_lhs => rw [← mk_toList oldT]
      exact congrArg String.mk hpat
    subst holdT
    refine ⟨?_, ?_, ?_, ?_, ?_, ?_⟩
    · show concatWith (String.mk (pc :: psc))
          ((splitAllL pc psc s.toList).map (fun l => String.mk l)) = s
      rw [concatWith_mk, intercalateL_splitAllL]
      exact mk_toList s
    · show String.mk (replAllSubFuel pc psc newT.toList s.toList.length [] s.toList)
          = interleaveStr ((splitAllL pc psc s.toList).map (fun l => String.mk l))
              ((subsL pc psc newT.toList s.toList).map (fun l => String.mk l))
      rw [interleaveStr_mk]
      exact congrArg String.mk
        (replAllSub_eq_interleave pc psc newT.toList s.toList.length [] s.toList le_rfl)
    · intro part hp
      obtain ⟨l, hl, rfl⟩ := List.mem_map.mp hp
      show countOccL pc psc (String.mk l).toList = 0
      exact countOccL_splitAllL_zero pc psc s.toList l hl
    · show ((splitAllL pc psc s.toList).map (fun l => String.mk l)).length
          = countOccL pc psc s.toList + 1
      rw [List.length_map]
      exact splitAllL_length pc psc s.toList
    · show ((subsL pc psc newT.toList s.toList).map (fun l => String.mk l)).length
          = countOccL pc psc s.toList
      rw [List.length_map]
      exact subsFuel_length pc psc newT.toList s.toList.length [] s.toList le_rfl
    · intro hnd
      show String.mk (replAllSubFuel pc psc newT.toList s.toList.length [] s.toList)
          = concatWith newT ((splitAllL pc psc s.toList).map (fun l => String.mk l))
      rw [replAllSubFuel_noDollar pc psc newT.toList hnd]
      show String.mk (replAllL pc psc newT.toList s.toList)
          = concatWith newT ((splitAllL pc psc s.toList).map (fun l => String.mk l))
      conv_rhs => rw [← mk_toList newT]
      rw [concatWith_mk, replAllL_eq_intercalateL]
  · intro oldT newT s hne hocc
    have hpat : ∃ pc psc, oldT.toList = pc :: psc := by
      cases h : oldT.toList with
      | nil => exact absurd (by rw [← mk_toList oldT, h]) hne
      | cons pc psc => exact ⟨pc, psc, rfl⟩
    obtain ⟨pc, psc, hpat⟩ := hpat
    have holdT : oldT = String.mk (pc :: psc) := by
      conv_lhs => rw [← mk_toList oldT]
      exact congrArg String.mk hpat
    subst holdT
    have hocc' : 1 ≤ countOccL pc psc s.toList := hocc
    obtain ⟨a, b, e1, e2, e3⟩ := replFirstSub_decomp pc psc newT.toList s.toList hocc' []
    rw [List.nil_append] at e2
    refine ⟨String.mk a, String.mk b, ?_, ?_, e3, ?_⟩
    · conv_lhs => rw [← mk_toList s]
      rw [show s.toList = a ++ (pc :: psc) ++ b from e1, ← mk_append, ← mk_append]
    · show String.mk (replFirstSubL pc psc newT.toList [] s.toList)
          = String.mk a ++ getSubstitutionStr (String.mk (pc :: psc)) (String.mk a)
              (String.mk b) newT ++ String.mk b
      rw [e2]
      show String.mk (a ++ getSubL (pc :: psc) a b newT.toList ++ b)
          = String.mk a ++ String.mk (getSubL (pc :: psc) a b newT.toList) ++ String.mk b
      rw [mk_append, mk_append]
    · intro hnd
      show String.mk (replFirstSubL pc psc newT.toList [] s.toList)
          = String.mk a ++ newT ++ String.mk b
      rw [e2, getSubL_noDollar (pc :: psc) a b newT.toList hnd]
      conv_rhs => rw [← mk_toList newT]
      rw [mk_append, mk_append]



/-- C2 witness: all five dispatch outcomes at a concrete store whose
resolved note content is `"foo bar foo"`. -/
theorem editNote_spec_witness :
    editNote envAvail 0 wWarm "note-Missing" { old_text := "x", new_text := "y" }
        = .error .notFound
    ∧ editNote envAvail 0 wWarm "note-Foo" { old_text := "zap", new_text := "y" }
        = .error .textNotFound
    ∧ editNote envAvail 0 wWarm "note-Foo" { old_text := "foo", new_text := "baz" }
        = .error .ambiguousMatch
    ∧ editNote envAvail 0 wWarm "note-Foo" { old_text := "bar", new_text := "qux" }
        = updateNote envAvail 0 (getAllNotes envAvail 0 wWarm).2 "note-Foo"
            { content := some (jsReplaceFirst "bar" "qux" fooNote.content) }
    ∧ editNote envAvail 0 wWarm "note-Foo"
          { old_text := "foo", new_text := "baz", replace_all := true }
        = updateNote envAvail 0 (getAllNotes envAvail 0 wWarm).2 "note-Foo"
            { content := some (jsReplaceAll "foo" "baz" fooNote.content) } := by
  refine ⟨?_, ?_, ?_, ?_, ?_⟩
  · exact (editNote_spec envAvail 0 wWarm "note-Missing" _).1 (by decide)
  · exact ((editNote_spec envAvail 0 wWarm "note-Foo" _).2.1 fooNote (by decide)).1 (by decide)
  · exact ((editNote_spec envAvail 0 wWarm "note-Foo" _).2.1 fooNote (by decide)).2.1
      (by decide) rfl
  · exact ((editNote_spec envAvail 0 wWarm "note-Foo" _).2.1 fooNote (by decide)).2.2.1
      (by decide) rfl
  · exact ((editNote_spec envAvail 0 wWarm "note-Foo" _).2.1 fooNote (by decide)).2.2.2
      rfl (by decide)

/-- C9: a successful `moveNote` preserves the filename — the destination
is the target folder's filesystem path joined with the existing basename —
and moves the file content byte-for-byte (the returned reparsed note and
the destination file both carry the original content, and the source path
is gone); when the destination is occupied by a different file it fails
`AlreadyExists`. -/
theorem moveNote_frame (env : Env) (now : Nat) (w : World) (id targetFolder : String)
    (nt : Note) (fp : String) (tloc : NotePath) (c : String)
    (hres : getNoteByIdIn (getAllNotes env now w).1 id = some nt)
    (hcal : (nt.location.type == NoteCategory.calendar || strStartsWith id "calendar-") = false)
    (hfp : nt.filePath = some fp)
    (htl : parseLocationString targetFolder = .ok tloc)
    (havail : env.available = true)
    (hread : readFile (getAllNotes env now w).2.files fp = some c) :
    (existsSync env (getAllNotes env now w).2.files
          (joinPath (getFileSystemPath tloc) (basename fp)) = true →
      (joinPath (getFileSystemPath tloc) (basename fp) == fp) = false →
        moveNote env now w id targetFolder = .error .alreadyExists)
    ∧ (existsSync env (getAllNotes env now w).2.files
          (joinPath (getFileSystemPath tloc) (basename fp)) = false →
       (joinPath (getFileSystemPath tloc) (basename fp) == fp) = false →
        (returnedNote (moveNote env now w id targetFolder)).map
            (fun n => (n.filePath, n.content, n.filename))
          = some (some (joinPath (getFileSystemPath tloc) (basename fp)), c,
              some (basenameDrop (joinPath (getFileSystemPath tloc) (basename fp))
                (extname (joinPath (getFileSystemPath tloc) (basename fp)))))
        ∧ (resultFiles (moveNote env now w id targetFolder)).map
            (fun fs => (readFile fs (joinPath (getFileSystemPath tloc) (basename fp)),
              readFile fs fp))
          = some (some c, none)) := by
  have hguard : (tloc.type != NoteCategory.note) = false := by
    simp [parseLocationString_ok_type htl]
  constructor
  · intro hex hne
    have hbne : (joinPath (getFileSystemPath tloc) (basename fp) != fp) = true := by
      simp [bne, hne]
    simp only [moveNote, getNoteById, hres, hcal, Bool.false_eq_true, if_false, hfp, htl,
      hguard, havail, if_true, hex, hbne, Bool.and_self, Bool.true_and]
  · intro hex hne
    have hbne : (joinPath (getFileSystemPath tloc) (basename fp) != fp) = true := by
      simp [bne, hne]
    have hfpne : (fp == joinPath (getFileSystemPath tloc) (basename fp)) = false := by
      simp only [beq_eq_false_iff_ne] at hne ⊢
      exact fun e => hne e.symm
    simp only [moveNote, getNoteById, hres, hcal, Bool.false_eq_true, if_false, hfp, htl,
      hguard, havail, if_true, hex, hbne, Bool.false_and, hread]
    simp only [parseNoteFileM, readFile_writeFile_self]
    simp only [returnedNote, resultFiles, Option.map]
    refine ⟨trivial, ?_⟩
    rw [readFile_writeFile_self, readFile_writeFile_other _ _ _ _ hfpne,
      readFile_removeFile_self]

set_option maxRecDepth 4000 in
/-- C9 witness: moving `note-Foo` from the notes root into `Work` lands at
`.../Notes/Work/Foo.txt` with the content intact, and a simulated occupied
destination fails `AlreadyExists`. -/
theorem moveNote_frame_witness :
    (returnedNote (moveNote envAvail 0 wWarm "note-Foo" "Work")).map
        (fun n => (n.filePath, n.content, n.filename))
      = some (some (joinPath (getFileSystemPath (createNotePath .note "Work"))
            (basename (joinPath NOTES_PATH "Foo.txt"))), "foo bar foo",
          some (basenameDrop (joinPath (getFileSystemPath (createNotePath .note "Work"))
              (basename (joinPath NOTES_PATH "Foo.txt")))
            (extname (joinPath (getFileSystemPath (createNotePath .note "Work"))
              (basename (joinPath NOTES_PATH "Foo.txt"))))))
    ∧ (resultFiles (moveNote envAvail 0 wWarm "note-Foo" "Work")).map
        (fun fs => (readFile fs (joinPath (getFileSystemPath (createNotePath .note "Work"))
            (basename (joinPath NOTES_PATH "Foo.txt"))),
          readFile fs (joinPath NOTES_PATH "Foo.txt")))
      = some (some "foo bar foo", none) :=
  (moveNote_frame envAvail 0 wWarm "note-Foo" "Work" fooNote (joinPath NOTES_PATH "Foo.txt")
    (createNotePath .note "Work") "foo bar foo" (by decide) (by decide) (by decide)
    (by decide) (by decide) (by decide)).2 (by decide) (by decide)



theorem createDailyNote_ok_state (env : Env) (now : Nat) (w : World)
    (opts : CreateDailyNoteParams) (havail : env.available = true) :
    ∀ a w', createDailyNote env now w opts = .ok (a, w') →
      w'.notesCache = [] ∧ w'.lastCacheUpdate = 0 := by
  intro a w' hok
  simp only [createDailyNote, havail, if_true] at hok
  repeat' split at hok
  all_goals first
    | (exfalso; exact Except.noConfusion hok)
    | (rw [Except.ok.injEq, Prod.mk.injEq] at hok
       obtain ⟨-, hw⟩ := hok
       subst hw
       exact ⟨rfl, rfl⟩)

theorem createNote_ok_state (env : Env) (now : Nat) (w : World)
    (pp : CreateNoteParams) (havail : env.available = true) :
    ∀ a w', createNote env now w pp = .ok (a, w') →
      w'.notesCache = [] ∧ w'.lastCacheUpdate = 0 := by
  intro a w' hok
  simp only [createNote, havail, if_true] at hok
  repeat' split at hok
  all_goals first
    | (exfalso; exact Except.noConfusion hok)
    | (rw [Except.ok.injEq, Prod.mk.injEq] at hok
       obtain ⟨-, hw⟩ := hok
       subst hw
       exact ⟨rfl, rfl⟩)

theorem updateNote_cleared (env : Env) (now : Nat) (w : World) (id : String)
    (u : UpdateNoteParams) (nt : Note) (fp : String)
    (hres : getNoteByIdIn (getAllNotes env now w).1 id = some nt)
    (hfp : nt.filePath = some fp) (havail : env.available = true) :
    cacheStateOf (updateNote env now w id u) = some ([], 0) := by
  simp only [updateNote, getNoteById, hres, hfp, havail, if_true, cacheStateOf]

theorem editNote_cleared (env : Env) (now : Nat) (w : World) (id : String)
    (p : EditNoteParams) (nt : Note) (fp : String)
    (hres : getNoteByIdIn (getAllNotes env now w).1 id = some nt)
    (hfp : nt.filePath = some fp) (havail : env.available = true)
    (hok : isOk (editNote env now w id p) = true) :
    cacheStateOf (editNote env now w id p) = some ([], 0) := by
  have hstab := getAllNotes_stable env now w
  have hres1 : getNoteByIdIn (getAllNotes env now ((getAllNotes env now w).2)).1 id = some nt := by
    rw [hstab]
    exact hres
  cases hb : (countOccStr p.old_text nt.content == 0) with
  | true =>
    simp only [editNote, getNoteById, hres, hb, if_true, isOk] at hok
    simp at hok
  | false =>
    cases hc : (decide (1 < countOccStr p.old_text nt.content) && !p.replace_all) with
    | true =>
      simp only [editNote, getNoteById, hres, hb, Bool.false_eq_true, if_false, hc, if_true,
        isOk] at hok
    | false =>
      have hE : editNote env now w id p
          = updateNote env now ((getAllNotes env now w).2) id
              { content := some (if p.replace_all
                  then jsReplaceAll p.old_text p.new_text nt.content
                  else jsReplaceFirst p.old_text p.new_text nt.content) } := by
        simp only [editNote, getNoteById, hres, hb, hc, Bool.false_eq_true, if_false]
      rw [hE]
      exact updateNote_cleared env now _ id _ nt fp hres1 hfp havail

theorem renameNote_ok_state (env : Env) (now : Nat) (w : World) (id t : String)
    (havail : env.available = true) :
    ∀ a w', renameNote env now w id t = .ok (a, w') →
      w'.notesCache = [] ∧ w'.lastCacheUpdate = 0 := by
  intro a w' hok
  simp only [renameNote, getNoteById, havail, if_true] at hok
  repeat' split at hok
  all_goals first
    | (exfalso; exact Except.noConfusion hok)
    | (rw [Except.ok.injEq, Prod.mk.injEq] at hok
       obtain ⟨-, hw⟩ := hok
       subst hw
       exact ⟨rfl, rfl⟩)

theorem moveNote_ok_state (env : Env) (now : Nat) (w : World) (id tf : String)
    (havail : env.available = true) :
    ∀ a w', moveNote env now w id tf = .ok (a, w') →
      w'.notesCache = [] ∧ w'.lastCacheUpdate = 0 := by
  intro a w' hok
  simp only [moveNote, getNoteById, havail, if_true] at hok
  repeat' split at hok
  all_goals first
    | (exfalso; exact Except.noConfusion hok)
    | (rw [Except.ok.injEq, Prod.mk.injEq] at hok
       obtain ⟨-, hw⟩ := hok
       subst hw
       exact ⟨rfl, rfl⟩)

theorem renameFolder_ok_state (env : Env) (now : Nat) (w : World) (ofp nn : String)
    (havail : env.available = true) :
    ∀ a w', renameFolder env now w ofp nn = .ok (a, w') →
      w'.notesCache = [] ∧ w'.lastCacheUpdate = 0 := by
  intro a w' hok
  simp only [renameFolder, havail, Bool.not_true, Bool.false_eq_true, if_false] at hok
  repeat' split at hok
  all_goals first
    | (exfalso; exact Except.noConfusion hok)
    | (rw [Except.ok.injEq, Prod.mk.injEq] at hok
       obtain ⟨-, hw⟩ := hok
       subst hw
       exact ⟨rfl, rfl⟩)

theorem cacheStateOf_of_ok {α : Type} (x : Except NoteError (α × World))
    (h : ∀ a w', x = .ok (a, w') → w'.notesCache = [] ∧ w'.lastCacheUpdate = 0)
    (hok : isOk x = true) : cacheStateOf x = some ([], 0) := by
  cases x with
  | error e => simp [isOk] at hok
  | ok r =>
    obtain ⟨h1, h2⟩ := h r.1 r.2 (by rw [Prod.mk.eta])
    simp [cacheStateOf, h1, h2]



/-- C4 counterexample: on the fallback in-memory path (directories
unavailable) `createDailyNote` returns successfully while the nonempty
notes cache and its refresh timestamp are left untouched — the cache is
not explicitly cleared, refuting "including the fallback in-memory path". -/
theorem mutation_cache_counterexample :
    isOk (createDailyNote envUnavail 11 wWarmTen {}) = true
    ∧ cacheStateOf (createDailyNote envUnavail 11 wWarmTen {}) = some ([calNote, fooNote], 10)
    ∧ cacheStateOf (createDailyNote envUnavail 11 wWarmTen {}) ≠ some ([], 0) :=
  ⟨by decide, by decide, by decide⟩

/-- C4 amended: with the NotePlan directories available, every mutating
operation that returns successfully through the real-filesystem path has
explicitly cleared the notes cache (snapshot dropped, refresh timestamp
reset); for `updateNote`/`editNote` this requires the resolved note to
carry a backing file path (otherwise even with directories available the
code falls back to the in-memory branch, which does not clear). -/
theorem mutation_cache_amended (env : Env) (now : Nat) (w : World)
    (havail : env.available = true) :
    (∀ opts, isOk (createDailyNote env now w opts) = true →
        cacheStateOf (createDailyNote env now w opts) = some ([], 0))
    ∧ (∀ pp, isOk (createNote env now w pp) = true →
        cacheStateOf (createNote env now w pp) = some ([], 0))
    ∧ (∀ id u nt fp, getNoteByIdIn (getAllNotes env now w).1 id = some nt →
        nt.filePath = some fp →
        cacheStateOf (updateNote env now w id u) = some ([], 0))
    ∧ (∀ id pp nt fp, getNoteByIdIn (getAllNotes env now w).1 id = some nt →
        nt.filePath = some fp → isOk (editNote env now w id pp) = true →
        cacheStateOf (editNote env now w id pp) = some ([], 0))
    ∧ (∀ id t, isOk (renameNote env now w id t) = true →
        cacheStateOf (renameNote env now w id t) = some ([], 0))
    ∧ (∀ id tf, isOk (moveNote env now w id tf) = true →
        cacheStateOf (moveNote env now w id tf) = some ([], 0))
    ∧ (∀ ofp nn, isOk (renameFolder env now w ofp nn) = true →
        cacheStateOf (renameFolder env now w ofp nn) = some ([], 0)) := by
  refine ⟨?_, ?_, ?_, ?_, ?_, ?_, ?_⟩
  · intro opts hok
    exact cacheStateOf_of_ok _ (createDailyNote_ok_state env now w opts havail) hok
  · intro pp hok
    exact cacheStateOf_of_ok _ (createNote_ok_state env now w pp havail) hok
  · intro id u nt fp hres hfp
    exact updateNote_cleared env now w id u nt fp hres hfp havail
  · intro id pp nt fp hres hfp hok
    exact editNote_cleared env now w id pp nt fp hres hfp havail hok
  · intro id t hok
    exact cacheStateOf_of_ok _ (renameNote_ok_state env now w id t havail) hok
  · intro id tf hok
    exact cacheStateOf_of_ok _ (moveNote_ok_state env now w id tf havail) hok
  · intro ofp nn hok
    exact cacheStateOf_of_ok _ (renameFolder_ok_state env now w ofp nn havail) hok

set_option maxRecDepth 8000 in
/-- C4 amended witness: concrete successful runs of all seven mutations on
the real-filesystem path, each leaving the cache cleared. -/
theorem mutation_cache_amended_witness :
    cacheStateOf (createDailyNote envAvail 0 wWarm {}) = some ([], 0)
    ∧ cacheStateOf (createNote envAvail 0 wWarm { title := "Hello" }) = some ([], 0)
    ∧ cacheStateOf (updateNote envAvail 0 wWarm "note-Foo" { content := some "x" }) = some ([], 0)
    ∧ cacheStateOf (editNote envAvail 0 wWarm "note-Foo"
        { old_text := "bar", new_text := "y" }) = some ([], 0)
    ∧ cacheStateOf (renameNote envAvail 0 wWarm "note-Foo" "NewName") = some ([], 0)
    ∧ cacheStateOf (moveNote envAvail 0 wWarm "note-Foo" "Work") = some ([], 0)
    ∧ cacheStateOf (renameFolder envProj 0 wWarm "Projects" "Archive") = some ([], 0) := by
  have hA := mutation_cache_amended envAvail 0 wWarm rfl
  have hP := mutation_cache_amended envProj 0 wWarm rfl
  exact ⟨hA.1 {} (by decide),
    hA.2.1 { title := "Hello" } (by decide),
    hA.2.2.1 "note-Foo" { content := some "x" } fooNote (joinPath NOTES_PATH "Foo.txt")
      (by decide) (by decide),
    hA.2.2.2.1 "note-Foo" { old_text := "bar", new_text := "y" } fooNote
      (joinPath NOTES_PATH "Foo.txt") (by decide) (by decide) (by decide),
    hA.2.2.2.2.1 "note-Foo" "NewName" (by decide),
    hA.2.2.2.2.2.1 "note-Foo" "Work" (by decide),
    hP.2.2.2.2.2.2 "Projects" "Archive" (by decide)⟩

end NotePlanMCP
